import Mathlib

/-!
# The archive xaction of aistore (`xs/archive.go`) and its neighbours

A shallow embedding of `XactPutArchive` (Begin, Do, Run, doSend, recvObjDM,
finalize, _fini, Stats) and of the work item `archwi` (do, addToArch),
followed by the snapshots of `xact/stats.go`, the burst of
`transport/tinit.go`, `cos.ParseURLScheme` as tested in `cmn/tests/url_test.go`
and the S3 object handlers of `ais/prxs3.go`.

Conventions of the embedding.

* The xaction is a state `XState`: the pending counter of the demand base, the
  pending map, the work channel, the cluster map that `Sowner().Get()` returns,
  the `finalize` goroutines launched so far, and the trace of the calls made to
  the collaborators (transport, tar writer, local metadata layer).
* The collaborators that are outside `xs/archive.go` are the fields of `Env`:
  every theorem holds for every `Env`.
* A Go run-time panic (nil dereference) is the result `none`.
* `debug.Assert` and `debug.AssertNoErr` are the empty functions of a build
  without the `debug` tag; the asserted conditions are kept where they are
  written in the source (`debugAssert`).
-/

namespace Aistore

/-! ## Data model -/

/-- The bucket `cmn.Bck`. -/
structure Bck where
  Name : String
  Provider : String
  deriving DecidableEq, Repr

/-- The node `cluster.Snode`; `ID()` is the field `id`. -/
structure Snode where
  id : String
  deriving DecidableEq, Repr

/-- The cluster map `cluster.Smap`. -/
structure Smap where
  version : Nat
  tmap : List Snode
  deriving DecidableEq, Repr

/-- The errors that the archive xaction tells apart. -/
inductive Err where
  | objNotExist (what : String)
  | aborted (who : String)
  | invalid
  | eof
  | other (what : String)
  deriving DecidableEq, Repr

/-- Modelled from the spec: `cmn.IsObjNotExist` (package cmn is not among the
sources), the test for an "object does not exist" error. -/
def IsObjNotExist : Err → Bool
  | .objNotExist _ => true
  | _ => false

/-- Modelled from the spec: `cos.IsEOF` (package cos is not among the sources),
the test for the end-of-stream error. -/
def IsEOF : Err → Bool
  | .eof => true
  | _ => false

/-- Modelled from the spec: `cmn.NewAbortedError` (package cmn is not among the
sources), the error of a cooperative cancellation. -/
def NewAbortedError (who : String) : Err := .aborted who

/-- Go `http.StatusNotFound`. -/
def StatusNotFound : Nat := 404

/-- Go `cos.ExtTar`. -/
def ExtTar : String := ".tar"

/-- Go `strings.HasSuffix`. -/
def HasSuffix (s suffix : String) : Bool := suffix.toList.isSuffixOf s.toList

/-- Go `cmn.ArchiveMsg`: destination bucket, archive name, and whether the
constituents are given as an explicit list (`IsList()`) or as a range. -/
structure ArchiveMsg where
  ToBck : Bck
  ArchName : String
  isList : Bool
  deriving DecidableEq, Repr

/-- Go `cmn.ObjAttrs`: size, access time in Unix nanoseconds, checksum
(`none` is `cos.NoneCksum`), version. -/
structure ObjAttrs where
  Size : Int
  Atime : Int
  Cksum : Option String
  Ver : String
  deriving DecidableEq, Repr

/-- Go `cluster.LOM`: the local metadata handle of one object. -/
structure LOM where
  bck : Bck
  ObjName : String
  FQN : String
  md : ObjAttrs
  deriving DecidableEq, Repr

/-- Go `os.File`, identified by its path. -/
structure File where
  path : String
  deriving DecidableEq, Repr

/-- Go `tar.Writer`, identified by the file it writes to. -/
structure TarWriter where
  fh : File
  deriving DecidableEq, Repr

/-- Go `tar.NewWriter`. -/
def NewWriter (fh : File) : TarWriter := ⟨fh⟩

/-- Go `tar.TypeReg`, the character 0. -/
def TypeReg : Nat := 48

/-- Go `tar.Header`, the fields that `addToArch` sets. -/
structure TarHeader where
  Typeflag : Nat
  Name : String
  Size : Int
  ModTime : Int
  deriving DecidableEq, Repr

/-- Go `time.Unix(sec, nsec)`, as nanoseconds since the epoch. -/
def timeUnix (sec nsec : Int) : Int := sec * 1000000000 + nsec

/-- Go `transport.ObjHdr`: bucket, object name, attributes and the bytes of
the correlation token. -/
structure ObjHdr where
  Bck : Bck
  ObjName : String
  ObjAttrs : ObjAttrs
  Opaque : List Char
  deriving DecidableEq, Repr

/-- Go `[]byte(s)`: a copy of the contents of the string. -/
def bytesOf (s : String) : List Char := s.data

/-- Go `string(b)`: a copy of the contents of the slice. -/
def stringOf (b : List Char) : String := String.mk b

/-- Go `archwi`, the archival work item. -/
structure archwi where
  msg : ArchiveMsg
  lom : LOM
  fqn : String
  fh : Option File
  tw : Option TarWriter
  tsi : Snode
  deriving DecidableEq, Repr

/-- Result of `DataMover.Quiesce`. -/
inductive QuiRes where
  | QuiDone
  | QuiAborted
  | QuiTimeout
  deriving DecidableEq, Repr

/-- Calls made to the collaborators, in the order they are made. -/
inductive Event where
  | createFile (lom : LOM) (fqn : String)
  | backendGet (lom : LOM)
  | openFile (fqn : String)
  | send (hdr : ObjHdr) (dst : Snode)
  | tarAppend (tw : TarWriter) (hdr : TarHeader)
  | freeLOM (lom : LOM)
  | closeFile (fh : File)
  | twClose (tw : TarWriter)
  | seek (fh : File)
  | finalizeObj (lom : LOM) (fqn : String) (size : Int)
  | stop
  | quiesce (timeout : Nat)
  | dmClose (err : Option Err)
  | unregRecv
  | finish (err : Option Err)
  deriving DecidableEq, Repr

/-- The collaborators of the xaction. -/
structure Env where
  /-- `r.t.Snode().ID()` -/
  localID : String
  /-- `r.bckFrom` -/
  bckFrom : Bck
  /-- `FullName()` of a LOM, a transport header or an archive message:
  the name of an object within its bucket -/
  FullName : Bck → String → String
  /-- `Bck.MakeUname` -/
  MakeUname : Bck → String → String
  /-- `cluster.HrwTarget` -/
  HrwTarget : String → Smap → Except Err Snode
  /-- the error, if any, of `lom.Init(bck)` -/
  initErr : String → Bck → Option Err
  /-- the path and the attributes of an object on this node -/
  fqnOf : Bck → String → String
  mdOf : Bck → String → ObjAttrs
  /-- `fs.CSM.GenContentFQN(lom, fs.WorkfileType, fs.WorkfileAppend)` -/
  GenContentFQN : LOM → String
  /-- `lom.CreateFile(fqn)` -/
  CreateFile : LOM → String → Except Err File
  /-- the error, if any, of `lom.Load` -/
  Load : LOM → Option Err
  /-- `lom.Bck().IsRemote()` -/
  IsRemote : Bck → Bool
  /-- `t.Backend(bck).GetObj(ctx, lom)` -/
  GetObj : LOM → Nat × Option Err
  /-- `cos.NewFileHandle(fqn)` -/
  NewFileHandle : String → Except Err File
  /-- `fh.Seek(0, io.SeekCurrent)` -/
  Seek : File → Except Err Int
  /-- `t.FinalizeObj(lom, fqn, size)` -/
  FinalizeObj : LOM → String → Int → Nat × Option Err
  /-- the objects of a request that the list-range iterator visits on this node -/
  constituents : ArchiveMsg → List String
  /-- `config.Rebalance.Quiesce.D()` -/
  quiesceD : Nat
  /-- `r.dm.Quiesce(d)` -/
  Quiesce : Nat → QuiRes
  /-- `r.String()` -/
  name : String

/-- The state of `XactPutArchive`. -/
structure XState where
  /-- the pending counter of `XactDemandBase` (`IncPending`, `DecPending`, `Pending`) -/
  npending : Int
  /-- `r.pending.m` -/
  m : String → Option archwi
  /-- `r.workCh` -/
  workCh : List ArchiveMsg
  /-- the value of `r.t.Sowner().Get()` -/
  smap : Smap
  /-- the goroutines started with `go r.finalize(wi, fullname)`, not yet run -/
  spawned : List (Option archwi × String)
  /-- the calls made so far -/
  trace : List Event

/-- Record one call. -/
def XState.emit (s : XState) (ev : Event) : XState :=
  { s with trace := s.trace ++ [ev] }

/-- Go `r.IncPending()`. -/
def XState.IncPending (s : XState) : XState := { s with npending := s.npending + 1 }

/-- Go `r.DecPending()`. -/
def XState.DecPending (s : XState) : XState := { s with npending := s.npending - 1 }

/-- Go `r.Pending()`. -/
def XState.Pending (s : XState) : Int := s.npending

/-- Go `m[key] = wi`. -/
def mapSet (m : String → Option archwi) (key : String) (wi : archwi) : String → Option archwi :=
  fun k => if k = key then some wi else m k

/-- Go `delete(m, key)`. -/
def mapDelete (m : String → Option archwi) (key : String) : String → Option archwi :=
  fun k => if k = key then none else m k

/-- Go `debug.Assert(cond)` and `debug.AssertNoErr(err)` in a build without the
`debug` tag: empty functions. -/
def debugAssert {α : Type} (_cond : Bool) (k : α) : α := k

/-- Go `msg.FullName()`. -/
def ArchiveMsg.FullName (env : Env) (msg : ArchiveMsg) : String :=
  env.FullName msg.ToBck msg.ArchName

/-- Go `lom.FullName()`. -/
def LOM.FullName (env : Env) (lom : LOM) : String :=
  env.FullName lom.bck lom.ObjName

/-- Go `hdr.FullName()`. -/
def ObjHdr.FullName (env : Env) (hdr : ObjHdr) : String :=
  env.FullName hdr.Bck hdr.ObjName

/-- Modelled from the spec: `cluster.AllocLOM` (package cluster is not among the
sources), `allocHandle(name) -> handle`. -/
def AllocLOM (objName : String) : LOM :=
  { bck := ⟨"", ""⟩, ObjName := objName, FQN := "", md := ⟨0, 0, none, ""⟩ }

/-- Modelled from the spec: `LOM.Init` (package cluster is not among the
sources), `handle.init(bucket) -> error`: binds the handle to the bucket, or
fails. -/
def LOM.Init (env : Env) (lom : LOM) (bck : Bck) : Except Err LOM :=
  match env.initErr lom.ObjName bck with
  | some e => .error e
  | none => .ok { lom with bck := bck, FQN := env.fqnOf bck lom.ObjName,
                           md := env.mdOf bck lom.ObjName }

/-- Modelled from the spec: `LOM.SizeBytes` (package cluster is not among the
sources), the size among the attributes of the object. -/
def LOM.SizeBytes (lom : LOM) : Int := lom.md.Size

/-- Modelled from the spec: `LOM.Atime` (package cluster is not among the
sources), the time among the attributes of the object, kept in Unix
nanoseconds. -/
def LOM.Atime (lom : LOM) : Int := timeUnix 0 lom.md.Atime

/-- Modelled from the spec: `LOM.ObjAttrs` (package cluster is not among the
sources), the attributes of the object. -/
def LOM.ObjAttrs (lom : LOM) : ObjAttrs := lom.md

/-- Modelled from the spec: `ObjAttrs.CopyFrom` (package cmn is not among the
sources): the wire header carries the attributes of the object. -/
def ObjAttrs.CopyFrom (_dst src : ObjAttrs) : ObjAttrs := src

/-! ## XactPutArchive.Begin -/

/-- Go `XactPutArchive.Begin` (archive.go:124-153). -/
def Begin (env : Env) (msg : ArchiveMsg) (s : XState) : Option Err × XState :=
  debugAssert (HasSuffix msg.ArchName ExtTar) <|
  let lom := AllocLOM msg.ArchName
  match LOM.Init env lom msg.ToBck with
  | .error e => (some e, s)
  | .ok lom =>
    debugAssert (decide (lom.FullName env = msg.FullName env)) <|
    let fqn := env.GenContentFQN lom
    let smap := s.smap
    match env.HrwTarget (env.MakeUname msg.ToBck msg.ArchName) smap with
    | .error e => (some e, s)
    | .ok tsi =>
      if env.localID = tsi.id then
        match env.CreateFile lom fqn with
        | .error e => (some e, s.emit (.createFile lom fqn))
        | .ok fh =>
          let wi : archwi := { msg := msg, lom := lom, fqn := fqn, fh := some fh,
                               tw := some (NewWriter fh), tsi := tsi }
          let s := s.emit (.createFile lom fqn)
          (none, { s with m := mapSet s.m (msg.FullName env) wi })
      else
        let wi : archwi := { msg := msg, lom := lom, fqn := fqn, fh := none,
                             tw := none, tsi := tsi }
        (none, { s with m := mapSet s.m (msg.FullName env) wi })

/-! ## The work item: addToArch, doSend, do -/

/-- The list-range iterator `lriterator`, the field that `archwi.do` reads. -/
structure lriterator where
  ignoreBackendErr : Bool
  deriving DecidableEq, Repr

/-- The tar header that `archwi.addToArch` fills in (archive.go:330-341): from
the local metadata when `lom` is not nil, from the transport header otherwise.
`none` is the nil dereference of `hdr`. -/
def tarHeaderOf (env : Env) (lom : Option LOM) (hdr : Option ObjHdr) : Option TarHeader :=
  let tarhdr : TarHeader := { Typeflag := TypeReg, Name := "", Size := 0, ModTime := 0 }
  match lom with
  | some lom =>
    some { tarhdr with Size := lom.SizeBytes, ModTime := lom.Atime, Name := lom.FullName env }
  | none =>
    match hdr with
    | some hdr =>
      some { tarhdr with Size := hdr.ObjAttrs.Size, ModTime := timeUnix 0 hdr.ObjAttrs.Atime,
                         Name := hdr.FullName env }
    | none => none

/-- Go `archwi.addToArch` (archive.go:329-351): writes the header and copies the
reader into the tar writer of the work item. A nil tar writer panics. -/
def archwi.addToArch (env : Env) (wi : archwi) (lom : Option LOM) (hdr : Option ObjHdr)
    (s : XState) : Option XState :=
  match tarHeaderOf env lom hdr with
  | none => none
  | some tarhdr =>
    match wi.tw with
    | none => none
    | some tw => some (s.emit (.tarAppend tw tarhdr))

/-- The transport header that `XactPutArchive.doSend` fills in (archive.go:209-215). -/
def sendHdr (env : Env) (lom : LOM) (wi : archwi) : ObjHdr :=
  { Bck := wi.msg.ToBck
    ObjName := lom.ObjName
    ObjAttrs := ObjAttrs.CopyFrom ⟨0, 0, none, ""⟩ lom.ObjAttrs
    Opaque := bytesOf (wi.msg.FullName env) }

/-- Go `XactPutArchive.doSend` (archive.go:207-220): `r.dm.Send(o, fh, wi.tsi)`. -/
def doSend (env : Env) (lom : LOM) (wi : archwi) (s : XState) : XState :=
  s.emit (.send (sendHdr env lom wi) wi.tsi)

/-- The load of `archwi.do` (archive.go:290-298): the error that `do` returns,
or whether the object has to be fetched from the backend (`coldGet`). -/
def loadStep (env : Env) (lom : LOM) : Except Err Bool :=
  match env.Load lom with
  | some err =>
    if !IsObjNotExist err then .error err
    else
      let coldGet := env.IsRemote lom.bck
      if !coldGet then .error err else .ok coldGet
  | none => .ok false

/-- The end of `archwi.do` (archive.go:313-326): open the object, then send it
to the owner or append it to the archive. -/
def archwi.sendOrAppend (env : Env) (wi : archwi) (lom : LOM) (s : XState) :
    Option (Option Err × XState) :=
  let s := s.emit (.openFile lom.FQN)
  match env.NewFileHandle lom.FQN with
  | .error err => some (some err, s)
  | .ok fh =>
    if env.localID ≠ wi.tsi.id then
      some (none, doSend env lom wi s)
    else
      debugAssert wi.fh.isSome <|
      match wi.addToArch env (some lom) none s with
      | none => none
      | some s => some (none, (s.emit (.freeLOM lom)).emit (.closeFile fh))

/-- Go `archwi.do` (archive.go:282-327). The result is the returned error and
the new state; `none` is a panic. -/
def archwi.do (env : Env) (wi : archwi) (lom : LOM) (lrit : lriterator) (s : XState) :
    Option (Option Err × XState) :=
  debugAssert (decide (env.bckFrom = lom.bck)) <|
  match loadStep env lom with
  | .error err => some (some err, s)
  | .ok coldGet =>
    if coldGet then
      let s := s.emit (.backendGet lom)
      match env.GetObj lom with
      | (errCode, some err) =>
        if errCode = StatusNotFound || IsObjNotExist err then some (none, s)
        else if lrit.ignoreBackendErr then some (none, s)
        else some (some err, s)
      | (_, none) => wi.sendOrAppend env lom s
    else wi.sendOrAppend env lom s

/-- Modelled from the spec: the policy of the iteration for the error of one
constituent (xs/lrit.go is not among the sources). For a range, which is the
request whose iterator ignores backend errors (archive.go:173), constituent
errors are logged and skipped; for an explicit list, any constituent error
other than "object does not exist" aborts the whole archive. -/
def lriterator.skips (lrit : lriterator) (err : Err) : Bool :=
  lrit.ignoreBackendErr || IsObjNotExist err

/-- Modelled from the spec: `lriterator.iterateList` and `lriterator.iterateRange`
(xs/lrit.go is not among the sources). The constituents of the request are
visited in order, each is bound to the source bucket and handed to the `do` of
the work item; the error of a constituent is skipped or ends the iteration,
as `lriterator.skips` says. A nil work item panics at the first constituent
it is handed. -/
def iterate (env : Env) (wi : Option archwi) (lrit : lriterator) :
    List String → XState → Option (Option Err × XState)
  | [], s => some (none, s)
  | objName :: rest, s =>
    match LOM.Init env (AllocLOM objName) env.bckFrom with
    | .error err =>
      if lrit.skips err then iterate env wi lrit rest s else some (some err, s)
    | .ok lom =>
      match wi with
      | none => none
      | some w =>
        match w.do env lom lrit s with
        | none => none
        | some (some err, s) =>
          if lrit.skips err then iterate env wi lrit rest s else some (some err, s)
        | some (none, s) => iterate env wi lrit rest s

/-! ## XactPutArchive: Do, Run, recvObjDM, finalize, _fini -/

/-- Go `XactPutArchive.Do` (archive.go:155-158). -/
def Do (msg : ArchiveMsg) (s : XState) : XState :=
  let s := s.IncPending
  { s with workCh := s.workCh ++ [msg] }

/-- The lookup of `recvObjDM`: `r.pending.m[string(hdr.Opaque)]` (archive.go:231). -/
def recvLookup (hdr : ObjHdr) (s : XState) : Option archwi :=
  s.m (stringOf hdr.Opaque)

/-- Go `XactPutArchive.recvObjDM` (archive.go:222-237). -/
def recvObjDM (env : Env) (hdr : ObjHdr) (err : Option Err) (s : XState) : Option XState :=
  let failed : Bool :=
    match err with
    | some e => !IsEOF e
    | none => false
  if failed then some s
  else
    match recvLookup hdr s with
    | none => none
    | some wi =>
      debugAssert (decide (wi.tsi.id = env.localID)) <| wi.addToArch env none (some hdr) s

/-- Modelled from the spec: `LOM.SetSize` (package cluster is not among the
sources), `handle.setSize(n)`. -/
def LOM.SetSize (lom : LOM) (size : Int) : LOM := { lom with md := { lom.md with Size := size } }

/-- Modelled from the spec: `LOM.SetCksum` (package cluster is not among the
sources), `handle.setChecksum(v)`. -/
def LOM.SetCksum (lom : LOM) (cksum : Option String) : LOM :=
  { lom with md := { lom.md with Cksum := cksum } }

/-- Go `cos.NoneCksum`. -/
def NoneCksum : Option String := none

/-- Go `fh.Seek(0, io.SeekCurrent)` on a possibly nil file: a nil `*os.File`
gives the invalid-argument error. -/
def seekCurrent (env : Env) (fh : Option File) (s : XState) : Except Err Int × XState :=
  match fh with
  | none => (.error .invalid, s)
  | some fh => (env.Seek fh, s.emit (.seek fh))

/-- Go `cos.Close(fh)`. -/
def closeFh (fh : Option File) (s : XState) : XState :=
  match fh with
  | some fh => s.emit (.closeFile fh)
  | none => s

/-- Go `XactPutArchive._fini` (archive.go:256-271). The result is
`(errCode, err)` and the new state; `none` is the panic on a nil tar writer. -/
def _fini (env : Env) (wi : archwi) (s : XState) : Option ((Nat × Option Err) × XState) :=
  match wi.tw with
  | none => none
  | some tw =>
    let s := s.emit (.twClose tw)
    match seekCurrent env wi.fh s with
    | (.error err, s) => some ((0, some err), s)
    | (.ok size, s) =>
      let lom := (wi.lom.SetSize size).SetCksum NoneCksum
      let s := closeFh wi.fh s
      let r := env.FinalizeObj lom wi.fqn size
      let s := s.emit (.finalizeObj lom wi.fqn size)
      some (r, s.emit (.freeLOM lom))

/-- Go `XactPutArchive.finalize` (archive.go:239-254). -/
def finalize (env : Env) (wi : Option archwi) (fullname : String) (s : XState) : Option XState :=
  match wi with
  | none => some s.DecPending
  | some w =>
    if w.tw.isNone then some s.DecPending
    else
      match _fini env w s with
      | none => none
      | some (_, s) =>
        let s := { s with m := mapDelete s.m fullname }
        some s.DecPending

/-- The teardown of `XactPutArchive.Run` after the label `fin` (archive.go:196-204);
returns the error the job finishes with. -/
def fin (env : Env) (err : Option Err) (s : XState) : Option Err × XState :=
  let s := s.emit .stop
  let q := env.Quiesce env.quiesceD
  let s := s.emit (.quiesce env.quiesceD)
  let err := if q = .QuiAborted ∧ err = none then some (NewAbortedError env.name) else err
  let s := s.emit (.dmClose err)
  let s := s.emit .unregRecv
  (err, s.emit (.finish err))

/-- What the `select` of `Run` picks: a message from the work channel (with the
value `r.Aborted()` has once the iteration returns), the idle timer, or the
abort channel. -/
inductive Sel where
  | work (aborted : Bool)
  | idleTimer
  | chanAbort
  deriving DecidableEq, Repr

/-- How a run of `Run` ends: it returned after the teardown with the error it
finished with, or it is still in its loop, waiting in `select`. -/
inductive RunRes where
  | finished (err : Option Err)
  | waiting
  deriving DecidableEq, Repr

/-- The lookup of `Run`: `r.pending.m[msg.FullName()]` (archive.go:166-168). -/
def runLookup (env : Env) (msg : ArchiveMsg) (s : XState) : Option archwi :=
  s.m (msg.FullName env)

/-- The iterator that `Run` sets up for a request (archive.go:172-176). -/
def lritOf (msg : ArchiveMsg) : lriterator :=
  { ignoreBackendErr := !msg.isList }

/-- Go `XactPutArchive.Run` (archive.go:160-205), along the choices its
`select` makes; `err` is the variable declared before the loop. `none` is a
panic. -/
def runLoop (env : Env) : List Sel → Option Err → XState → Option (RunRes × XState)
  | [], _, s => some (.waiting, s)
  | .work aborted :: rest, _, s =>
    match s.workCh with
    | [] => some (.waiting, s)
    | msg :: ch =>
      let s := { s with workCh := ch }
      let fullname := msg.FullName env
      let wi := runLookup env msg s
      let lrit := lritOf msg
      match iterate env wi lrit (env.constituents msg) s with
      | none => none
      | some (err, s) =>
        if aborted || err.isSome then
          let (err, s) := fin env err s
          some (.finished err, s)
        else
          match wi with
          | none => none
          | some w =>
            if env.localID = w.tsi.id then
              runLoop env rest err { s with spawned := s.spawned ++ [(wi, fullname)] }
            else
              runLoop env rest err s.DecPending
  | .idleTimer :: _, err, s =>
    let (err, s) := fin env err s
    some (.finished err, s)
  | .chanAbort :: _, err, s =>
    let (err, s) := fin env err s
    some (.finished err, s)

/-- Go `XactPutArchive.Run`. -/
def Run (env : Env) (sel : List Sel) (s : XState) : Option (RunRes × XState) :=
  runLoop env sel none s

/-! ## XactPutArchive.Stats -/

/-- Go `xaction.BaseXactDemandStatsExt`. -/
structure BaseXactDemandStatsExt where
  IsIdle : Bool
  deriving DecidableEq, Repr

/-- Go `xaction.BaseXactStatsExt`: the statistics of the demand base (identified
here by the ID and the kind of the xaction) and the extension `Ext`. -/
structure BaseXactStatsExt where
  ID : String
  Kind : String
  Ext : Option BaseXactDemandStatsExt
  deriving DecidableEq, Repr

/-- Go `XactPutArchive.Stats` (archive.go:273-277); `baseStats` is the value of
`r.XactDemandBase.Stats()`. -/
def Stats (baseStats : BaseXactStatsExt) (s : XState) : BaseXactStatsExt :=
  { baseStats with Ext := some { IsIdle := decide (s.Pending = 0) } }

/-! ## Snapshots of xactions (`xact/stats.go`) -/

/-- Go `time.Time`: seconds and nanoseconds since the zero time. -/
structure Time where
  sec : Int
  nsec : Int
  deriving DecidableEq, Repr

/-- Go `Time.IsZero`. -/
def Time.IsZero (t : Time) : Bool := decide (t.sec = 0) && decide (t.nsec = 0)

/-- A Go value of type `interface{}` stored in a decoded map: nil, a boolean,
or a value of another type. -/
inductive Any where
  | null
  | bool (b : Bool)
  | number (n : Int)
  | text (t : String)
  deriving DecidableEq, Repr

/-- The dynamic value of the field `Ext` of a `SnapExt`: nil, a
`map[string]interface{}`, or a value of any other type. -/
inductive ExtValue where
  | null
  | vals (entries : List (String × Any))
  | another (what : String)
  deriving DecidableEq, Repr

/-- Go `xact.Snap` (stats.go:15-23), without the counters. -/
structure Snap where
  ID : String
  Kind : String
  Bck : Bck
  StartTime : Time
  EndTime : Time
  AbortedX : Bool
  deriving DecidableEq, Repr

/-- Go `xact.SnapExt` (stats.go:34-37). -/
structure SnapExt extends Snap where
  Ext : ExtValue
  deriving DecidableEq, Repr

/-- Go `Snap.IsAborted` (stats.go:65). -/
def Snap.IsAborted (b : Snap) : Bool := b.AbortedX

/-- Go `Snap.Running` (stats.go:66). -/
def Snap.Running (b : Snap) : Bool := b.EndTime.IsZero

/-- Go `Snap.Finished` (stats.go:67). -/
def Snap.Finished (b : Snap) : Bool := !b.EndTime.IsZero

/-- Go `SnapExt.Idle` (stats.go:74-84). -/
def SnapExt.Idle (b : SnapExt) : Bool :=
  match b.Ext with
  | .null => !b.toSnap.Running
  | .vals vals =>
    match vals.lookup "is_idle" with
    | some (.bool idle) => idle
    | _ => !b.toSnap.Running
  | .another _ => !b.toSnap.Running

/-! ## The burst of the transport (`transport/tinit.go`) -/

/-- Go `dfltBurstNum` (tinit.go:24). -/
def dfltBurstNum : Int := 32

/-- The value of a decimal digit. -/
def digitOf (c : Char) : Option Nat :=
  if '0' ≤ c ∧ c ≤ '9' then some (c.toNat - '0'.toNat) else none

/-- The number written by a sequence of decimal digits, after `acc`. -/
def parseDigits : List Char → Nat → Option Nat
  | [], acc => some acc
  | c :: cs, acc =>
    match digitOf c with
    | none => none
    | some d => parseDigits cs (acc * 10 + d)

/-- Go `strconv.ParseUint(s, 10, 64)`; `none` is an error (syntax or range). -/
def ParseUint (cs : List Char) : Option Nat :=
  match cs with
  | [] => none
  | _ =>
    match parseDigits cs 0 with
    | none => none
    | some un => if un < 2 ^ 64 then some un else none

/-- Go `strconv.ParseInt(s, 10, 0)` where `int` has 64 bits; `none` is an error
(syntax or range). -/
def ParseInt (a : String) : Option Int :=
  match a.toList with
  | [] => none
  | '+' :: cs =>
    match ParseUint cs with
    | none => none
    | some un => if un < 2 ^ 63 then some (un : Int) else none
  | '-' :: cs =>
    match ParseUint cs with
    | none => none
    | some un => if un ≤ 2 ^ 63 then some (-(un : Int)) else none
  | cs =>
    match ParseUint cs with
    | none => none
    | some un => if un < 2 ^ 63 then some (un : Int) else none

/-- Go `burst` (tinit.go:61-73); `configBurst` is `config.Transport.Burst` and
`getenv` the value of `os.Getenv("AIS_STREAM_BURST_NUM")`, which is empty when
the variable is not set. -/
def burst (configBurst : Int) (getenv : String) : Int :=
  let burst := if configBurst = 0 then dfltBurstNum else configBurst
  if getenv ≠ "" then
    match ParseInt getenv with
    | none => burst
    | some burst64 => burst64
  else burst

/-! ## cos.ParseURLScheme -/

/-- The separator of scheme and address. -/
def schemeSep : List Char := "://".toList

/-- Split a string at the first occurrence of the separator. -/
def splitFirst (sep : List Char) : List Char → Option (List Char × List Char)
  | [] => none
  | c :: cs =>
    if sep.isPrefixOf (c :: cs) then some ([], (c :: cs).drop sep.length)
    else
      match splitFirst sep cs with
      | none => none
      | some (before, after) => some (c :: before, after)

/-- Modelled from the spec: `cos.ParseURLScheme` (package cos is not among the
sources, only `TestParseURLScheme` is). The URL is split at the first `://`
into scheme and address; without `://` the scheme is empty and the address is
the whole string. -/
def ParseURLScheme (url : String) : String × String :=
  match splitFirst schemeSep url.toList with
  | none => ("", url)
  | some (scheme, address) => (String.mk scheme, String.mk address)

/-- The table of `TestParseURLScheme` (url_test.go:19-23): expected scheme,
expected address, url. -/
def testCases : List (String × String × String) :=
  [("http", "localhost:8080", "http://localhost:8080"),
   ("https", "localhost", "https://localhost"),
   ("", "localhost:8080", "localhost:8080")]

/-- The checks of `TestParseURLScheme` (url_test.go:25-29) on one case. -/
def testCasePasses (tc : String × String × String) : Bool :=
  let (scheme, address) := ParseURLScheme tc.2.2
  decide (scheme = tc.1) && decide (address = tc.2.1)

/-! ## The S3 object handlers of the proxy (`ais/prxs3.go`) -/

/-- The collaborators of the proxy. -/
structure PEnv where
  /-- the error, if any, of `bck.Init(p.owner.bmd, nil)` -/
  bckInit : Bck → Option Err
  /-- `bck.AllowPUT()`, `bck.AllowGET()`, `bck.AllowHEAD()` -/
  AllowPUT : Bck → Option Err
  AllowGET : Bck → Option Err
  AllowHEAD : Bck → Option Err
  /-- `Bck.MakeUname` -/
  MakeUname : Bck → String → String
  /-- `cluster.HrwTarget` -/
  HrwTarget : String → Smap → Except Err Snode
  /-- `p.owner.smap.get()` -/
  smap : Smap
  /-- Go `path.Join` -/
  pathJoin : List String → String

/-- Go `cmn.ProviderAIS`. -/
def ProviderAIS : String := "ais"

/-- Go `cluster.NewBck(name, cmn.ProviderAIS, cmn.NsGlobal)`. -/
def NewBck (name : String) : Bck := { Name := name, Provider := ProviderAIS }

/-- The networks of `p.redirectURL`. -/
inductive Network where
  | IntraData
  | IntraControl
  deriving DecidableEq, Repr

/-- Go `http.StatusInternalServerError`. -/
def StatusInternalServerError : Nat := 500

/-- What a handler answers: `p.invalmsghdlr` with the error or the text it is
given and the status, if one is passed; or `http.Redirect` to the URL of a node
on a network. -/
inductive S3Resp where
  | invalErr (err : Err) (status : Option Nat)
  | invalText (text : String)
  | redirect (si : Snode) (net : Network)
  deriving DecidableEq, Repr

/-- Go `proxyrunner.putObjS3` (prxs3.go:202-233); `none` is the panic of
`items[0]` on an empty path. -/
def putObjS3 (p : PEnv) (items : List String) : Option S3Resp :=
  match items with
  | [] => none
  | name :: rest =>
    let bck := NewBck name
    match p.bckInit bck with
    | some err => some (.invalErr err none)
    | none =>
      if items.length < 2 then some (.invalText "object name is undefined")
      else
        let smap := p.smap
        match p.AllowPUT bck with
        | some err => some (.invalErr err none)
        | none =>
          let objName := p.pathJoin rest
          match p.HrwTarget (p.MakeUname bck objName) smap with
          | .error err => some (.invalErr err none)
          | .ok si => some (.redirect si .IntraData)

/-- Go `proxyrunner.getObjS3` (prxs3.go:236-267). -/
def getObjS3 (p : PEnv) (items : List String) : Option S3Resp :=
  match items with
  | [] => none
  | name :: rest =>
    let bck := NewBck name
    match p.bckInit bck with
    | some err => some (.invalErr err none)
    | none =>
      if items.length < 2 then some (.invalText "object name is undefined")
      else
        let smap := p.smap
        match p.AllowGET bck with
        | some err => some (.invalErr err none)
        | none =>
          let objName := p.pathJoin rest
          match p.HrwTarget (p.MakeUname bck objName) smap with
          | .error err => some (.invalErr err none)
          | .ok si => some (.redirect si .IntraData)

/-- Go `proxyrunner.headObjS3` (prxs3.go:269-296). -/
def headObjS3 (p : PEnv) (items : List String) : Option S3Resp :=
  if items.length < 2 then some (.invalText "object name is missing")
  else
    match items with
    | [] => none
    | name :: rest =>
      let objName := p.pathJoin rest
      let bck := NewBck name
      match p.bckInit bck with
      | some err => some (.invalErr err none)
      | none =>
        match p.AllowHEAD bck with
        | some err => some (.invalErr err none)
        | none =>
          let smap := p.smap
          match p.HrwTarget (p.MakeUname bck objName) smap with
          | .error err => some (.invalErr err (some StatusInternalServerError))
          | .ok si => some (.redirect si .IntraControl)

/-! ## A concrete cluster, for evaluating the definitions -/

/-- A node of a small cluster: buckets `src` and `dst`, two objects of the
source bucket on this node, full names of the form bucket/object, and the
first target of the cluster map as the owner of every key. -/
def exEnv (localID : String) : Env where
  localID := localID
  bckFrom := ⟨"src", "ais"⟩
  FullName := fun b o => b.Name ++ "/" ++ o
  MakeUname := fun b o => b.Provider ++ "/" ++ b.Name ++ "/" ++ o
  HrwTarget := fun _ smap =>
    match smap.tmap with
    | [] => .error (.other "no targets")
    | t :: _ => .ok t
  initErr := fun _ _ => none
  fqnOf := fun b o => "/mp/" ++ b.Name ++ "/" ++ o
  mdOf := fun _ _ => ⟨10, 1000, some "xxhash", "1"⟩
  GenContentFQN := fun lom => lom.FQN ++ ".work"
  CreateFile := fun _ fqn => .ok ⟨fqn⟩
  Load := fun _ => none
  IsRemote := fun _ => false
  GetObj := fun _ => (0, none)
  NewFileHandle := fun fqn => .ok ⟨fqn⟩
  Seek := fun _ => .ok 2048
  FinalizeObj := fun _ _ _ => (0, none)
  constituents := fun _ => ["a", "b"]
  quiesceD := 10
  Quiesce := fun _ => .QuiDone
  name := "archive[src]"

/-- A freshly started xaction in a cluster of the targets `t1` and `t2`. -/
def exState : XState where
  npending := 0
  m := fun _ => none
  workCh := []
  smap := ⟨1, [⟨"t1"⟩, ⟨"t2"⟩]⟩
  spawned := []
  trace := []

/-- A request for the archive `arch.tar` in the bucket `dst`, by an explicit list. -/
def exMsg : ArchiveMsg := { ToBck := ⟨"dst", "ais"⟩, ArchName := "arch.tar", isList := true }

/-- The object `a` of the source bucket, as the iterator hands it to `do`. -/
def exLom : LOM :=
  { bck := ⟨"src", "ais"⟩, ObjName := "a", FQN := "/mp/src/a", md := ⟨10, 1000, some "xxhash", "1"⟩ }

/-- The work item of `exMsg` on the owner `t1`. -/
def exWiOwner : archwi :=
  { msg := exMsg
    lom := { bck := ⟨"dst", "ais"⟩, ObjName := "arch.tar", FQN := "/mp/dst/arch.tar",
             md := ⟨10, 1000, some "xxhash", "1"⟩ }
    fqn := "/mp/dst/arch.tar.work"
    fh := some ⟨"/mp/dst/arch.tar.work"⟩
    tw := some ⟨⟨"/mp/dst/arch.tar.work"⟩⟩
    tsi := ⟨"t1"⟩ }

/-- The work item of `exMsg` on a node that is not the owner. -/
def exWiOther : archwi := { exWiOwner with fh := none, tw := none }

/-- An environment in which the source bucket is remote, no object is cached
and the backend answers 500. -/
def exEnvCold : Env :=
  { exEnv "t1" with
    Load := fun _ => some (.objNotExist "not cached")
    IsRemote := fun _ => true
    GetObj := fun _ => (500, some (.other "backend timeout")) }

/-- The request of `exMsg` with an archive name that does not end in `.tar`. -/
def exMsgZip : ArchiveMsg := { exMsg with ArchName := "arch.zip" }

/-- The environment `exEnvCold` with a transport whose quiesce ends by abort. -/
def exEnvAborted : Env :=
  { exEnvCold with Quiesce := fun _ => .QuiAborted }

/-- A proxy of the cluster of `exState`: every bucket exists and allows every
access, the first target of the cluster map owns every key. -/
def exPEnv : PEnv where
  bckInit := fun _ => none
  AllowPUT := fun _ => none
  AllowGET := fun _ => none
  AllowHEAD := fun _ => none
  MakeUname := fun b o => b.Provider ++ "/" ++ b.Name ++ "/" ++ o
  HrwTarget := fun _ smap =>
    match smap.tmap with
    | [] => .error (.other "no targets")
    | t :: _ => .ok t
  smap := ⟨1, [⟨"t1"⟩, ⟨"t2"⟩]⟩
  pathJoin := fun elems => "/".intercalate elems

/-- The proxy `exPEnv` with an empty cluster map. -/
def exPEnvEmpty : PEnv := { exPEnv with smap := ⟨2, []⟩ }

/-! ## Events and traces -/

/-- Append calls to the trace. -/
def XState.emits (s : XState) (evs : List Event) : XState :=
  { s with trace := s.trace ++ evs }

/-- The two actions of a work item on a constituent: sending it, appending it. -/
def Event.isAction : Event → Bool
  | .send _ _ => true
  | .tarAppend _ _ => true
  | _ => false

/-- The calls of the teardown of `Run`. -/
def Event.isTeardown : Event → Bool
  | .stop => true
  | .quiesce _ => true
  | .dmClose _ => true
  | .unregRecv => true
  | .finish _ => true
  | _ => false

/-- The calls of `t.FinalizeObj`. -/
def Event.isFinalizeObj : Event → Bool
  | .finalizeObj _ _ _ => true
  | _ => false

/-- The calls that the iteration over the constituents can make. -/
def Event.isCollect : Event → Bool
  | .backendGet _ => true
  | .openFile _ => true
  | .send _ _ => true
  | .tarAppend _ _ => true
  | .freeLOM _ => true
  | .closeFile _ => true
  | _ => false

/-- The calls of the teardown of `Run`, in their order, for the error `e` the
job finishes with. -/
def teardownCalls (env : Env) (e : Option Err) : List Event :=
  [.stop, .quiesce env.quiesceD, .dmClose e, .unregRecv, .finish e]

theorem emit_eq_emits (s : XState) (ev : Event) : s.emit ev = s.emits [ev] := rfl

theorem emits_nil (s : XState) : s.emits [] = s := by
  cases s; simp [XState.emits]

theorem emits_emits (s : XState) (a b : List Event) : (s.emits a).emits b = s.emits (a ++ b) := by
  simp [XState.emits, List.append_assoc]

/-! ## The work item on one constituent -/

theorem sendOrAppend_send (env : Env) (wi : archwi) (lom : LOM) (s : XState) (fh : File)
    (hopen : env.NewFileHandle lom.FQN = .ok fh) (hne : env.localID ≠ wi.tsi.id) :
    wi.sendOrAppend env lom s
      = some (none, s.emits [.openFile lom.FQN, .send (sendHdr env lom wi) wi.tsi]) := by
  simp [archwi.sendOrAppend, hopen, hne, doSend, emit_eq_emits, emits_emits]

theorem sendOrAppend_append (env : Env) (wi : archwi) (lom : LOM) (s : XState) (fh : File)
    (tw : TarWriter) (hopen : env.NewFileHandle lom.FQN = .ok fh)
    (heq : env.localID = wi.tsi.id) (htw : wi.tw = some tw) :
    wi.sendOrAppend env lom s
      = some (none, s.emits [.openFile lom.FQN,
          .tarAppend tw ⟨TypeReg, lom.FullName env, lom.SizeBytes, lom.Atime⟩,
          .freeLOM lom, .closeFile fh]) := by
  simp [archwi.sendOrAppend, hopen, heq, debugAssert, archwi.addToArch, tarHeaderOf, htw,
    emit_eq_emits, emits_emits]

/-- C2: a constituent that `archwi.do` loads (cold-fetching it if needed) and
opens is handled by exactly one action, chosen by comparing the local node ID
with the ID of the owner of the work item: when they differ the only action is
one send of the object to the owner `wi.tsi` and nothing is appended; when
they are equal the only action is one append to the tar writer of the work
item, with the header made from the local metadata, and nothing is sent. -/
theorem do_sends_or_appends (env : Env) (wi : archwi) (lom : LOM) (lrit : lriterator)
    (s : XState) (coldGet : Bool) (fh : File)
    (hload : loadStep env lom = .ok coldGet)
    (hget : coldGet = true → (env.GetObj lom).2 = none)
    (hopen : env.NewFileHandle lom.FQN = .ok fh) :
    (env.localID ≠ wi.tsi.id →
      ∃ evs, wi.do env lom lrit s = some (none, s.emits evs) ∧
        evs.filter Event.isAction = [.send (sendHdr env lom wi) wi.tsi]) ∧
    (env.localID = wi.tsi.id → ∀ tw, wi.tw = some tw →
      ∃ evs tarhdr, wi.do env lom lrit s = some (none, s.emits evs) ∧
        tarHeaderOf env (some lom) none = some tarhdr ∧
        evs.filter Event.isAction = [.tarAppend tw tarhdr]) := by
  constructor
  · intro hne
    cases coldGet with
    | false =>
      refine ⟨[.openFile lom.FQN, .send (sendHdr env lom wi) wi.tsi], ?_, ?_⟩
      · simp [archwi.do, debugAssert, hload, sendOrAppend_send env wi lom s fh hopen hne]
      · simp [Event.isAction]
    | true =>
      have hg := hget rfl
      refine ⟨[.backendGet lom, .openFile lom.FQN, .send (sendHdr env lom wi) wi.tsi], ?_, ?_⟩
      · rcases hgo : env.GetObj lom with ⟨code, e⟩
        rw [hgo] at hg
        simp only at hg
        subst hg
        simp [archwi.do, debugAssert, hload, hgo,
          sendOrAppend_send env wi lom _ fh hopen hne, emit_eq_emits, emits_emits]
      · simp [Event.isAction]
  · intro heq tw htw
    cases coldGet with
    | false =>
      refine ⟨[.openFile lom.FQN,
          .tarAppend tw ⟨TypeReg, lom.FullName env, lom.SizeBytes, lom.Atime⟩,
          .freeLOM lom, .closeFile fh], ⟨TypeReg, lom.FullName env, lom.SizeBytes, lom.Atime⟩,
          ?_, ?_, ?_⟩
      · simp [archwi.do, debugAssert, hload, sendOrAppend_append env wi lom s fh tw hopen heq htw]
      · simp [tarHeaderOf]
      · simp [Event.isAction]
    | true =>
      have hg := hget rfl
      refine ⟨[.backendGet lom, .openFile lom.FQN,
          .tarAppend tw ⟨TypeReg, lom.FullName env, lom.SizeBytes, lom.Atime⟩,
          .freeLOM lom, .closeFile fh], ⟨TypeReg, lom.FullName env, lom.SizeBytes, lom.Atime⟩,
          ?_, ?_, ?_⟩
      · rcases hgo : env.GetObj lom with ⟨code, e⟩
        rw [hgo] at hg
        simp only at hg
        subst hg
        simp [archwi.do, debugAssert, hload, hgo,
          sendOrAppend_append env wi lom _ fh tw hopen heq htw, emit_eq_emits, emits_emits]
      · simp [tarHeaderOf]
      · simp [Event.isAction]

/-- Witness of `do_sends_or_appends`: on the node `t2`, which is not the owner
`t1`, the object `a` is sent to `t1` and not appended. -/
theorem do_sends_or_appends_witness :
    loadStep (exEnv "t2") exLom = .ok false ∧
    (exEnv "t2").NewFileHandle exLom.FQN = .ok ⟨"/mp/src/a"⟩ ∧
    ∃ evs, exWiOther.do (exEnv "t2") exLom ⟨false⟩ exState = some (none, exState.emits evs) ∧
      evs.filter Event.isAction = [.send (sendHdr (exEnv "t2") exLom exWiOther) ⟨"t1"⟩] :=
  ⟨rfl, rfl,
    (do_sends_or_appends (exEnv "t2") exWiOther exLom ⟨false⟩ exState false ⟨"/mp/src/a"⟩
      rfl (by simp) rfl).1 (by decide)⟩

/-- C3: when `archwi.do` cold-fetches a constituent and the fetch fails, `do`
returns nil if the failure is not-found (status 404 or an object-does-not-exist
error), whether the request is a list or a range; for any other failure it
returns that error for a list (`ignoreBackendErr = !msg.IsList()` is false) and
nil for a range. In all these cases the constituent is neither sent nor
appended. -/
theorem do_coldget_failure (env : Env) (wi : archwi) (lom : LOM) (msg : ArchiveMsg)
    (s : XState) (errCode : Nat) (err : Err)
    (hload : loadStep env lom = .ok true)
    (hget : env.GetObj lom = (errCode, some err)) :
    ∃ evs, evs.filter Event.isAction = [] ∧
      wi.do env lom (lritOf msg) s
        = some (if errCode = StatusNotFound ∨ IsObjNotExist err = true then none
                else if msg.isList = true then some err else none, s.emits evs) := by
  refine ⟨[.backendGet lom], by simp [Event.isAction], ?_⟩
  by_cases h1 : errCode = StatusNotFound
  · simp [archwi.do, debugAssert, hload, hget, h1, emit_eq_emits]
  · by_cases h2 : IsObjNotExist err = true
    · simp [archwi.do, debugAssert, hload, hget, h2, emit_eq_emits]
    · cases hl : msg.isList <;>
        simp [archwi.do, debugAssert, hload, hget, h1, h2, lritOf, hl, emit_eq_emits]

/-- Witness of `do_coldget_failure`: a backend failure other than not-found
fails an explicit list. -/
theorem do_coldget_failure_witness :
    loadStep exEnvCold exLom = .ok true ∧
    exEnvCold.GetObj exLom = (500, some (.other "backend timeout")) ∧
    ∃ evs, evs.filter Event.isAction = [] ∧
      exWiOwner.do exEnvCold exLom (lritOf exMsg) exState
        = some (some (.other "backend timeout"), exState.emits evs) :=
  ⟨rfl, rfl, do_coldget_failure exEnvCold exWiOwner exLom exMsg exState 500
    (.other "backend timeout") rfl rfl⟩

/-! ## Begin -/

/-- C4, at the failing input: the archive name `arch.zip` does not end in
`.tar`, which `Begin` asserts (archive.go:125) and does not enforce; on the
owner `t1`, `Begin` of the request returns nil, creates the destination file
and registers a work item with a tar writer under the full name of the
request. -/
theorem Begin_accepts_other_suffix :
    HasSuffix exMsgZip.ArchName ExtTar = false ∧
    (Begin (exEnv "t1") exMsgZip exState).1 = none ∧
    (Begin (exEnv "t1") exMsgZip exState).2.trace
      = [.createFile { bck := ⟨"dst", "ais"⟩, ObjName := "arch.zip", FQN := "/mp/dst/arch.zip",
                       md := ⟨10, 1000, some "xxhash", "1"⟩ } "/mp/dst/arch.zip.work"] ∧
    ((Begin (exEnv "t1") exMsgZip exState).2.m (exMsgZip.FullName (exEnv "t1"))).map
        (fun wi => (wi.msg.ArchName, wi.tw))
      = some ("arch.zip", some ⟨⟨"/mp/dst/arch.zip.work"⟩⟩) := by
  refine ⟨by decide, by decide, by decide, by decide⟩

/-- What a successful `Begin` leaves in the pending map. -/
theorem Begin_nil_inv (env : Env) (msg : ArchiveMsg) (s s1 : XState)
    (h : Begin env msg s = (none, s1)) :
    ∃ wi, s1.m (msg.FullName env) = some wi ∧ wi.msg = msg ∧
      env.HrwTarget (env.MakeUname msg.ToBck msg.ArchName) s.smap = .ok wi.tsi ∧
      ((wi.fh.isSome = true ∧ wi.tw.isSome = true) ↔ env.localID = wi.tsi.id) ∧
      (∀ fh, wi.fh = some fh → wi.tw = some (NewWriter fh)) := by
  rcases hI : LOM.Init env (AllocLOM msg.ArchName) msg.ToBck with e | lom
  · simp [Begin, debugAssert, hI] at h
  · rcases hT : env.HrwTarget (env.MakeUname msg.ToBck msg.ArchName) s.smap with e | tsi
    · simp [Begin, debugAssert, hI, hT] at h
    · by_cases hown : env.localID = tsi.id
      · rcases hC : env.CreateFile lom (env.GenContentFQN lom) with e | fh
        · simp [Begin, debugAssert, hI, hT, hown, hC] at h
        · simp only [Begin, debugAssert, hI, hT, hown, hC, if_true, Prod.mk.injEq,
            true_and] at h
          subst h
          refine ⟨{ msg := msg, lom := lom, fqn := env.GenContentFQN lom, fh := some fh,
                    tw := some (NewWriter fh), tsi := tsi }, ?_, rfl, rfl, ?_, ?_⟩
          · simp [mapSet, XState.emit]
          · simp [hown]
          · intro fh1 h1
            simp only [Option.some.injEq] at h1
            simp [h1]
      · simp only [Begin, debugAssert, hI, hT, hown, if_false, Prod.mk.injEq, true_and] at h
        subst h
        refine ⟨{ msg := msg, lom := lom, fqn := env.GenContentFQN lom, fh := none,
                  tw := none, tsi := tsi }, ?_, rfl, rfl, ?_, ?_⟩
        · simp [mapSet]
        · simp [hown]
        · intro fh1 h1
          simp at h1

/-- C5: after `Begin` returns nil, the pending map holds under `msg.FullName()`
a work item whose owner is the node that `HrwTarget` resolves, in the current
cluster map, from the unique name of the destination bucket and the archive
name; the work item has an open destination file and a tar writer exactly
when the local node is that owner, and the tar writer then writes to that file. -/
theorem Begin_registers (env : Env) (msg : ArchiveMsg) (s s1 : XState)
    (h : Begin env msg s = (none, s1)) :
    ∃ wi, s1.m (msg.FullName env) = some wi ∧ wi.msg = msg ∧
      env.HrwTarget (env.MakeUname msg.ToBck msg.ArchName) s.smap = .ok wi.tsi ∧
      ((wi.fh.isSome = true ∧ wi.tw.isSome = true) ↔ env.localID = wi.tsi.id) ∧
      (∀ fh, wi.fh = some fh → wi.tw = some (NewWriter fh)) :=
  Begin_nil_inv env msg s s1 h

/-- Witness of `Begin_registers`: `Begin` of `exMsg` on the owner `t1`. -/
theorem Begin_registers_witness :
    Begin (exEnv "t1") exMsg exState = (none, (Begin (exEnv "t1") exMsg exState).2) ∧
    ∃ wi, (Begin (exEnv "t1") exMsg exState).2.m (exMsg.FullName (exEnv "t1")) = some wi ∧
      wi.msg = exMsg ∧
      (exEnv "t1").HrwTarget ((exEnv "t1").MakeUname exMsg.ToBck exMsg.ArchName) exState.smap
        = .ok wi.tsi ∧
      ((wi.fh.isSome = true ∧ wi.tw.isSome = true) ↔ (exEnv "t1").localID = wi.tsi.id) ∧
      (∀ fh, wi.fh = some fh → wi.tw = some (NewWriter fh)) :=
  ⟨rfl, Begin_registers (exEnv "t1") exMsg exState _ rfl⟩

/-! ## The tar header on the two paths -/

/-- The header of a local append is made from the bucket of the object. -/
theorem tarHeaderOf_local (env : Env) (lom : LOM) :
    tarHeaderOf env (some lom) none
      = some ⟨TypeReg, env.FullName lom.bck lom.ObjName, lom.SizeBytes, lom.Atime⟩ := rfl

/-- The header of a received object is made from the destination bucket of
the request: type flag, size and modification time are those of the local
append, the name is the full name in the destination bucket. -/
theorem tarHeaderOf_recv (env : Env) (lom : LOM) (wi : archwi) :
    tarHeaderOf env none (some (sendHdr env lom wi))
      = some ⟨TypeReg, env.FullName wi.msg.ToBck lom.ObjName, lom.SizeBytes, lom.Atime⟩ := rfl

/-- C6, at the failing input: the object `a` of the bucket `src`, archived
into the bucket `dst`. Appended by the owner `t1` from its local metadata,
its entry is named `src/a`; sent by `t2` and appended by the receive callback
of `t1`, its entry is named `dst/a`. Type flag, size and modification time
agree. -/
theorem tar_entry_name_differs :
    (exWiOwner.addToArch (exEnv "t1") (some exLom) none exState).map (fun s => s.trace)
      = some [.tarAppend ⟨⟨"/mp/dst/arch.tar.work"⟩⟩ ⟨TypeReg, "src/a", 10, 1000⟩] ∧
    (doSend (exEnv "t2") exLom exWiOther exState).trace
      = [.send (sendHdr (exEnv "t2") exLom exWiOther) ⟨"t1"⟩] ∧
    (recvObjDM (exEnv "t1") (sendHdr (exEnv "t2") exLom exWiOther) none
        { exState with m := mapSet exState.m (exMsg.FullName (exEnv "t1")) exWiOwner }).map
        (fun s => s.trace)
      = some [.tarAppend ⟨⟨"/mp/dst/arch.tar.work"⟩⟩ ⟨TypeReg, "dst/a", 10, 1000⟩] := by
  refine ⟨by decide, by decide, by decide⟩

/-! ## The correlation token -/

/-- C7: the token that `doSend` puts in the transport header, read back as a
string by `recvObjDM`, is `msg.FullName()`, the key of `Begin` and of `Run`.
So the lookup of the receive callback is the lookup of `Run`, and in every
state that still holds the work item registered by a successful `Begin` the
receive callback finds that work item and appends to it. -/
theorem token_finds_work_item (env : Env) (msg : ArchiveMsg) (lom : LOM) (sender : archwi)
    (s s1 : XState) (hmsg : sender.msg = msg) (h : Begin env msg s = (none, s1)) :
    stringOf (sendHdr env lom sender).Opaque = msg.FullName env ∧
    (∀ s2, recvLookup (sendHdr env lom sender) s2 = runLookup env msg s2) ∧
    ∃ wi, s1.m (msg.FullName env) = some wi ∧
      ∀ s2, s2.m (msg.FullName env) = some wi →
        recvLookup (sendHdr env lom sender) s2 = some wi ∧
        recvObjDM env (sendHdr env lom sender) none s2
          = wi.addToArch env none (some (sendHdr env lom sender)) s2 := by
  have hkey : stringOf (sendHdr env lom sender).Opaque = msg.FullName env := by
    simp [sendHdr, stringOf, bytesOf, hmsg]
  obtain ⟨wi, hwi, -⟩ := Begin_nil_inv env msg s s1 h
  refine ⟨hkey, ?_, wi, hwi, ?_⟩
  · intro s2
    simp [recvLookup, runLookup, hkey]
  · intro s2 h2
    have hl : recvLookup (sendHdr env lom sender) s2 = some wi := by
      simp [recvLookup, hkey, h2]
    exact ⟨hl, by simp [recvObjDM, hl, debugAssert]⟩

/-- Witness of `token_finds_work_item`: a sender on `t2`, the owner `t1`. -/
theorem token_finds_work_item_witness :
    exWiOther.msg = exMsg ∧
    Begin (exEnv "t1") exMsg exState = (none, (Begin (exEnv "t1") exMsg exState).2) ∧
    stringOf (sendHdr (exEnv "t1") exLom exWiOther).Opaque = exMsg.FullName (exEnv "t1") :=
  ⟨rfl, rfl, (token_finds_work_item (exEnv "t1") exMsg exLom exWiOther exState _ rfl rfl).1⟩

/-! ## finalize and _fini -/

/-- With a tar writer, `_fini` returns, and only adds calls to the trace. -/
theorem fini_returns (env : Env) (wi : archwi) (s : XState) (tw : TarWriter)
    (htw : wi.tw = some tw) :
    ∃ r evs, _fini env wi s = some (r, s.emits evs) := by
  rcases hfh : wi.fh with _ | fh
  · exact ⟨(0, some .invalid), [.twClose tw],
      by simp [_fini, htw, hfh, seekCurrent, emit_eq_emits]⟩
  · rcases hs : env.Seek fh with e | n
    · exact ⟨(0, some e), [.twClose tw, .seek fh],
        by simp [_fini, htw, hfh, seekCurrent, hs, emit_eq_emits, emits_emits]⟩
    · exact ⟨env.FinalizeObj ((wi.lom.SetSize n).SetCksum NoneCksum) wi.fqn n,
        [.twClose tw, .seek fh, .closeFile fh,
          .finalizeObj ((wi.lom.SetSize n).SetCksum NoneCksum) wi.fqn n,
          .freeLOM ((wi.lom.SetSize n).SetCksum NoneCksum)],
        by simp [_fini, htw, hfh, seekCurrent, hs, closeFh, emit_eq_emits, emits_emits]⟩

/-- What `finalize` does: nothing but the decrement when there is no work item
or no tar writer; otherwise `_fini`, the removal of `fullname` from the pending
map, and the decrement. -/
theorem finalize_cases (env : Env) (wi : Option archwi) (fullname : String) (s : XState) :
    (∃ evs, ((wi = none ∨ ∃ w, wi = some w ∧ w.tw = none) ∧ evs = [] ∧
        finalize env wi fullname s = some s.DecPending) ∨
      ((∃ w tw, wi = some w ∧ w.tw = some tw) ∧
        finalize env wi fullname s
          = some ({ s.emits evs with m := mapDelete s.m fullname }).DecPending)) := by
  rcases wi with _ | w
  · exact ⟨[], Or.inl ⟨Or.inl rfl, rfl, rfl⟩⟩
  · rcases htw : w.tw with _ | tw
    · exact ⟨[], Or.inl ⟨Or.inr ⟨w, rfl, htw⟩, rfl, by simp [finalize, htw]⟩⟩
    · obtain ⟨r, evs, hf⟩ := fini_returns env w s tw htw
      exact ⟨evs, Or.inr ⟨⟨w, tw, rfl, htw⟩, by simp [finalize, htw, hf, XState.emits]⟩⟩

/-- The function `finalize` always returns, and decrements the pending counter by one. -/
theorem finalize_dec (env : Env) (wi : Option archwi) (fullname : String) (s : XState) :
    ∃ s2, finalize env wi fullname s = some s2 ∧ s2.npending = s.npending - 1 := by
  obtain ⟨evs, h | h⟩ := finalize_cases env wi fullname s
  · exact ⟨_, h.2.2, rfl⟩
  · exact ⟨_, h.2, rfl⟩

/-- C9: `_fini` closes the tar writer first and then measures the offset of
the file. If that gives the size `n`, the archive handle gets the size `n` and
the none checksum, `FinalizeObj` is called exactly once, with this handle, the
work file path and `n`, and `_fini` returns the result of that call. If
measuring fails, `_fini` returns that error and `FinalizeObj` is not called. -/
theorem fini_spec (env : Env) (wi : archwi) (s : XState) (tw : TarWriter)
    (htw : wi.tw = some tw) :
    (∀ n s1, seekCurrent env wi.fh (s.emit (.twClose tw)) = (.ok n, s1) →
      ∃ evs, _fini env wi s
          = some (env.FinalizeObj ((wi.lom.SetSize n).SetCksum NoneCksum) wi.fqn n,
              s.emits (.twClose tw :: evs)) ∧
        evs.filter Event.isFinalizeObj
          = [.finalizeObj ((wi.lom.SetSize n).SetCksum NoneCksum) wi.fqn n] ∧
        ((wi.lom.SetSize n).SetCksum NoneCksum).md.Size = n ∧
        ((wi.lom.SetSize n).SetCksum NoneCksum).md.Cksum = NoneCksum) ∧
    (∀ err s1, seekCurrent env wi.fh (s.emit (.twClose tw)) = (.error err, s1) →
      ∃ evs, _fini env wi s = some ((0, some err), s.emits (.twClose tw :: evs)) ∧
        evs.filter Event.isFinalizeObj = []) := by
  constructor
  · intro n s1 hseek
    rcases hfh : wi.fh with _ | fh
    · simp [seekCurrent, hfh] at hseek
    · simp only [seekCurrent, hfh, Prod.mk.injEq] at hseek
      refine ⟨[.seek fh, .closeFile fh,
          .finalizeObj ((wi.lom.SetSize n).SetCksum NoneCksum) wi.fqn n,
          .freeLOM ((wi.lom.SetSize n).SetCksum NoneCksum)], ?_, ?_, ?_, ?_⟩
      · simp [_fini, htw, hfh, seekCurrent, hseek.1, closeFh, emit_eq_emits, emits_emits]
      · simp [Event.isFinalizeObj]
      · simp [LOM.SetSize, LOM.SetCksum]
      · simp [LOM.SetSize, LOM.SetCksum]
  · intro err s1 hseek
    rcases hfh : wi.fh with _ | fh
    · simp only [seekCurrent, hfh, Prod.mk.injEq, Except.error.injEq] at hseek
      refine ⟨[], ?_, rfl⟩
      simp [_fini, htw, hfh, seekCurrent, hseek.1, emit_eq_emits]
    · simp only [seekCurrent, hfh, Prod.mk.injEq] at hseek
      refine ⟨[.seek fh], ?_, by simp [Event.isFinalizeObj]⟩
      simp [_fini, htw, hfh, seekCurrent, hseek.1, emit_eq_emits, emits_emits]

/-- Witness of `fini_spec`: the work item of the owner, whose file is at
offset 2048. -/
theorem fini_spec_witness :
    exWiOwner.tw = some ⟨⟨"/mp/dst/arch.tar.work"⟩⟩ ∧
    ∃ evs, _fini (exEnv "t1") exWiOwner exState
        = some ((exEnv "t1").FinalizeObj ((exWiOwner.lom.SetSize 2048).SetCksum NoneCksum)
            exWiOwner.fqn 2048,
            exState.emits (.twClose ⟨⟨"/mp/dst/arch.tar.work"⟩⟩ :: evs)) ∧
      evs.filter Event.isFinalizeObj
        = [.finalizeObj ((exWiOwner.lom.SetSize 2048).SetCksum NoneCksum) exWiOwner.fqn 2048] ∧
      ((exWiOwner.lom.SetSize 2048).SetCksum NoneCksum).md.Size = 2048 ∧
      ((exWiOwner.lom.SetSize 2048).SetCksum NoneCksum).md.Cksum = NoneCksum :=
  ⟨rfl, (fini_spec (exEnv "t1") exWiOwner exState _ rfl).1 2048 _ rfl⟩

/-! ## The iteration only adds calls to the trace -/

theorem sendOrAppend_emits (env : Env) (wi : archwi) (lom : LOM) (s s1 : XState)
    (r : Option Err) (h : wi.sendOrAppend env lom s = some (r, s1)) :
    ∃ evs, s1 = s.emits evs ∧ ∀ e ∈ evs, e.isCollect = true := by
  rcases ho : env.NewFileHandle lom.FQN with e | fh
  · simp only [archwi.sendOrAppend, ho, Option.some.injEq, Prod.mk.injEq] at h
    exact ⟨[.openFile lom.FQN], by rw [← h.2, emit_eq_emits], by simp [Event.isCollect]⟩
  · by_cases hown : env.localID = wi.tsi.id
    · rcases htw : wi.tw with _ | tw
      · simp [archwi.sendOrAppend, ho, hown, debugAssert, archwi.addToArch, tarHeaderOf, htw] at h
      · rw [sendOrAppend_append env wi lom s fh tw ho hown htw] at h
        simp only [Option.some.injEq, Prod.mk.injEq] at h
        exact ⟨_, h.2.symm, by simp [Event.isCollect]⟩
    · rw [sendOrAppend_send env wi lom s fh ho hown] at h
      simp only [Option.some.injEq, Prod.mk.injEq] at h
      exact ⟨_, h.2.symm, by simp [Event.isCollect]⟩

theorem do_emits (env : Env) (wi : archwi) (lom : LOM) (lrit : lriterator) (s s1 : XState)
    (r : Option Err) (h : wi.do env lom lrit s = some (r, s1)) :
    ∃ evs, s1 = s.emits evs ∧ ∀ e ∈ evs, e.isCollect = true := by
  rcases hl : loadStep env lom with e | coldGet
  · simp only [archwi.do, debugAssert, hl, Option.some.injEq, Prod.mk.injEq] at h
    exact ⟨[], by rw [emits_nil, h.2], by simp⟩
  · cases coldGet with
    | false =>
      simp only [archwi.do, debugAssert, hl, Bool.false_eq_true, if_false] at h
      exact sendOrAppend_emits env wi lom s s1 r h
    | true =>
      rcases hg : env.GetObj lom with ⟨code, _ | err⟩
      · simp only [archwi.do, debugAssert, hl, if_true, hg] at h
        obtain ⟨evs, h1, h2⟩ := sendOrAppend_emits env wi lom _ s1 r h
        refine ⟨.backendGet lom :: evs, ?_, ?_⟩
        · rw [h1, emit_eq_emits, emits_emits]; rfl
        · intro e he
          rcases List.mem_cons.mp he with rfl | he
          · rfl
          · exact h2 e he
      · refine ⟨[.backendGet lom], ?_, by simp [Event.isCollect]⟩
        simp only [archwi.do, debugAssert, hl, if_true, hg] at h
        split at h
        · simp only [Option.some.injEq, Prod.mk.injEq] at h
          rw [← h.2, emit_eq_emits]
        · split at h <;>
          · simp only [Option.some.injEq, Prod.mk.injEq] at h
            rw [← h.2, emit_eq_emits]

theorem iterate_emits (env : Env) (wi : Option archwi) (lrit : lriterator) (objs : List String) :
    ∀ (s s1 : XState) (r : Option Err), iterate env wi lrit objs s = some (r, s1) →
      ∃ evs, s1 = s.emits evs ∧ ∀ e ∈ evs, e.isCollect = true := by
  induction objs with
  | nil =>
    intro s s1 r h
    simp only [iterate, Option.some.injEq, Prod.mk.injEq] at h
    exact ⟨[], by rw [emits_nil, h.2], by simp⟩
  | cons o rest ih =>
    intro s s1 r h
    rcases hi : LOM.Init env (AllocLOM o) env.bckFrom with e | lom
    · simp only [iterate, hi] at h
      split at h
      · exact ih s s1 r h
      · simp only [Option.some.injEq, Prod.mk.injEq] at h
        exact ⟨[], by rw [emits_nil, h.2], by simp⟩
    · rcases wi with _ | w
      · simp [iterate, hi] at h
      · rcases hd : w.do env lom lrit s with _ | ⟨_ | err, s2⟩
        · simp [iterate, hi, hd] at h
        · simp only [iterate, hi, hd] at h
          obtain ⟨evs1, h1, h1c⟩ := do_emits env w lom lrit s s2 none hd
          obtain ⟨evs2, h2, h2c⟩ := ih s2 s1 r h
          refine ⟨evs1 ++ evs2, by rw [h2, h1, emits_emits], ?_⟩
          intro e he
          rcases List.mem_append.mp he with he | he
          · exact h1c e he
          · exact h2c e he
        · simp only [iterate, hi, hd] at h
          obtain ⟨evs1, h1, h1c⟩ := do_emits env w lom lrit s s2 (some err) hd
          split at h
          · obtain ⟨evs2, h2, h2c⟩ := ih s2 s1 r h
            refine ⟨evs1 ++ evs2, by rw [h2, h1, emits_emits], ?_⟩
            intro e he
            rcases List.mem_append.mp he with he | he
            · exact h1c e he
            · exact h2c e he
          · simp only [Option.some.injEq, Prod.mk.injEq] at h
            exact ⟨evs1, by rw [← h.2, h1], h1c⟩

/-! ## Run -/

theorem fin_trace (env : Env) (err : Option Err) (s : XState) :
    (fin env err s).2 = s.emits (teardownCalls env (fin env err s).1) := by
  simp [fin, teardownCalls, emit_eq_emits, emits_emits]

theorem fin_fields (env : Env) (err : Option Err) (s : XState) :
    (fin env err s).2.npending = s.npending ∧ (fin env err s).2.m = s.m ∧
    (fin env err s).2.spawned = s.spawned := by
  simp [fin, XState.emit]

/-- Whenever the loop of `Run` is left, the trace ends with the teardown, and
what the loop added before it has no teardown call. -/
theorem runLoop_teardown (env : Env) (sel : List Sel) :
    ∀ (err : Option Err) (s s1 : XState) (e : Option Err),
      runLoop env sel err s = some (.finished e, s1) →
      ∃ pre, s1.trace = s.trace ++ pre ++ teardownCalls env e ∧
        ∀ ev ∈ pre, ev.isCollect = true := by
  induction sel with
  | nil =>
    intro err s s1 e h
    simp [runLoop] at h
  | cons c rest ih =>
    intro err s s1 e h
    cases c with
    | idleTimer =>
      simp only [runLoop, Option.some.injEq, Prod.mk.injEq, RunRes.finished.injEq] at h
      refine ⟨[], ?_, by simp⟩
      rw [← h.2, fin_trace, h.1]
      simp [XState.emits]
    | chanAbort =>
      simp only [runLoop, Option.some.injEq, Prod.mk.injEq, RunRes.finished.injEq] at h
      refine ⟨[], ?_, by simp⟩
      rw [← h.2, fin_trace, h.1]
      simp [XState.emits]
    | work aborted =>
      rcases hch : s.workCh with _ | ⟨msg, ch⟩
      · simp [runLoop, hch] at h
      · simp only [runLoop, hch] at h
        rcases hit : iterate env (runLookup env msg { s with workCh := ch }) (lritOf msg)
            (env.constituents msg) { s with workCh := ch } with _ | ⟨r, s2⟩
        · simp [hit] at h
        · obtain ⟨evs, hev, hc⟩ := iterate_emits env _ _ _ _ _ _ hit
          simp only [hit] at h
          split at h
          · simp only [Option.some.injEq, Prod.mk.injEq, RunRes.finished.injEq] at h
            refine ⟨evs, ?_, hc⟩
            rw [← h.2, fin_trace, h.1, hev]
            simp [XState.emits]
          · split at h
            · simp at h
            · split at h
              · obtain ⟨pre, hp, hpc⟩ := ih _ _ _ _ h
                refine ⟨evs ++ pre, ?_, ?_⟩
                · rw [hp, hev]
                  simp [XState.emits]
                · intro ev hev2
                  rcases List.mem_append.mp hev2 with h3 | h3
                  · exact hc ev h3
                  · exact hpc ev h3
              · obtain ⟨pre, hp, hpc⟩ := ih _ _ _ _ h
                refine ⟨evs ++ pre, ?_, ?_⟩
                · rw [hp, hev]
                  simp [XState.emits, XState.DecPending]
                · intro ev hev2
                  rcases List.mem_append.mp hev2 with h3 | h3
                  · exact hc ev h3
                  · exact hpc ev h3

theorem isCollect_not_teardown (ev : Event) (h : ev.isCollect = true) : ev.isTeardown = false := by
  cases ev <;> simp_all [Event.isCollect, Event.isTeardown]

/-- The error that `fin` finishes with. -/
theorem fin_err (env : Env) (err : Option Err) (s : XState) :
    (fin env err s).1
      = if env.Quiesce env.quiesceD = .QuiAborted ∧ err = none
        then some (NewAbortedError env.name) else err := by
  simp [fin]

/-- The idle timer: from any state of the loop, `Run` goes to the teardown. -/
theorem runLoop_idleTimer (env : Env) (rest : List Sel) (err0 : Option Err) (s : XState) :
    runLoop env (.idleTimer :: rest) err0 s
      = some (.finished (fin env err0 s).1, (fin env err0 s).2) := by
  simp [runLoop]

/-- The abort signal: from any state of the loop, `Run` goes to the teardown. -/
theorem runLoop_chanAbort (env : Env) (rest : List Sel) (err0 : Option Err) (s : XState) :
    runLoop env (.chanAbort :: rest) err0 s
      = some (.finished (fin env err0 s).1, (fin env err0 s).2) := by
  simp [runLoop]

/-- A request whose iteration returns an error, or after which the job is
found aborted: `Run` goes to the teardown with the result of the iteration. -/
theorem runLoop_work_exit (env : Env) (aborted : Bool) (rest : List Sel) (err0 : Option Err)
    (s sI : XState) (msg : ArchiveMsg) (ch : List ArchiveMsg) (err : Option Err)
    (hch : s.workCh = msg :: ch)
    (hit : iterate env (runLookup env msg { s with workCh := ch }) (lritOf msg)
      (env.constituents msg) { s with workCh := ch } = some (err, sI))
    (hexit : aborted = true ∨ err ≠ none) :
    runLoop env (.work aborted :: rest) err0 s
      = some (.finished (fin env err sI).1, (fin env err sI).2) := by
  have hcond : (aborted || err.isSome) = true := by
    rcases hexit with h1 | h1
    · simp [h1]
    · rcases err with _ | x
      · exact absurd rfl h1
      · simp
  simp only [runLoop, hch, hit, hcond, if_true]

/-- A request whose iteration returns no error, the job not being aborted:
`Run` launches `finalize` on the owner, decrements the pending counter on any
other node, and is back at its `select` with a nil `err`. -/
theorem runLoop_work_continue (env : Env) (rest : List Sel) (err0 : Option Err)
    (s sI : XState) (msg : ArchiveMsg) (ch : List ArchiveMsg) (w : archwi)
    (hch : s.workCh = msg :: ch)
    (hl : runLookup env msg { s with workCh := ch } = some w)
    (hit : iterate env (some w) (lritOf msg) (env.constituents msg) { s with workCh := ch }
      = some (none, sI)) :
    runLoop env (.work false :: rest) err0 s
      = runLoop env rest none
          (if env.localID = w.tsi.id then
            { sI with spawned := sI.spawned ++ [(some w, msg.FullName env)] }
          else sI.DecPending) := by
  simp only [runLoop, hch, hl, hit]
  by_cases hown : env.localID = w.tsi.id <;> simp [hown]

/-- While `Run` is in its loop, it has made no call of the teardown. -/
theorem runLoop_waiting (env : Env) (sel : List Sel) :
    ∀ (err : Option Err) (s s1 : XState),
      runLoop env sel err s = some (.waiting, s1) →
      ∃ pre, s1.trace = s.trace ++ pre ∧ ∀ ev ∈ pre, ev.isCollect = true := by
  induction sel with
  | nil =>
    intro err s s1 h
    simp only [runLoop, Option.some.injEq, Prod.mk.injEq, true_and] at h
    exact ⟨[], by simp [h], by simp⟩
  | cons c rest ih =>
    intro err s s1 h
    cases c with
    | idleTimer => simp [runLoop] at h
    | chanAbort => simp [runLoop] at h
    | work aborted =>
      rcases hch : s.workCh with _ | ⟨msg, ch⟩
      · simp only [runLoop, hch, Option.some.injEq, Prod.mk.injEq, true_and] at h
        exact ⟨[], by simp [h], by simp⟩
      · simp only [runLoop, hch] at h
        rcases hit : iterate env (runLookup env msg { s with workCh := ch }) (lritOf msg)
            (env.constituents msg) { s with workCh := ch } with _ | ⟨r, s2⟩
        · simp [hit] at h
        · obtain ⟨evs, hev, hc⟩ := iterate_emits env _ _ _ _ _ _ hit
          simp only [hit] at h
          split at h
          · simp at h
          · split at h
            · simp at h
            · split at h
              · obtain ⟨pre, hp, hpc⟩ := ih _ _ _ h
                refine ⟨evs ++ pre, ?_, ?_⟩
                · rw [hp, hev]
                  simp [XState.emits]
                · intro ev hev2
                  rcases List.mem_append.mp hev2 with h3 | h3
                  · exact hc ev h3
                  · exact hpc ev h3
              · obtain ⟨pre, hp, hpc⟩ := ih _ _ _ h
                refine ⟨evs ++ pre, ?_, ?_⟩
                · rw [hp, hev]
                  simp [XState.emits, XState.DecPending]
                · intro ev hev2
                  rcases List.mem_append.mp hev2 with h3 | h3
                  · exact hc ev h3
                  · exact hpc ev h3

/-- C10: on each of the four ways out of its event loop, from any state of the
loop, `Run` returns after the teardown: when `select` picks the idle timer,
when it picks the abort signal, when the iteration for a request returns an
error, and when the job is found aborted after an iteration. The calls it
makes from then on are, once each and in this order: stop the demand base,
quiesce the transport with the configured timeout, close the transport,
unregister the receive handler, finish the job. Whatever `select` picks, a
`Run` that has returned ends its trace with these five calls and made none of
them before, and a `Run` that is still in its loop has made none of them. In
particular the transport is not closed before it is quiesced. -/
theorem Run_teardown_order (env : Env) :
    (∀ rest err0 s, ∃ e s1,
      runLoop env (.idleTimer :: rest) err0 s = some (.finished e, s1) ∧
      s1.trace = s.trace ++
        [.stop, .quiesce env.quiesceD, .dmClose e, .unregRecv, .finish e]) ∧
    (∀ rest err0 s, ∃ e s1,
      runLoop env (.chanAbort :: rest) err0 s = some (.finished e, s1) ∧
      s1.trace = s.trace ++
        [.stop, .quiesce env.quiesceD, .dmClose e, .unregRecv, .finish e]) ∧
    (∀ aborted rest err0 s sI msg ch err, s.workCh = msg :: ch →
      iterate env (runLookup env msg { s with workCh := ch }) (lritOf msg)
        (env.constituents msg) { s with workCh := ch } = some (err, sI) →
      (aborted = true ∨ err ≠ none) →
      ∃ e s1 evs, runLoop env (.work aborted :: rest) err0 s = some (.finished e, s1) ∧
        s1.trace = s.trace ++ evs ++
          [.stop, .quiesce env.quiesceD, .dmClose e, .unregRecv, .finish e] ∧
        ∀ ev ∈ evs, ev.isTeardown = false) ∧
    (∀ sel s s1 e, Run env sel s = some (.finished e, s1) →
      ∃ pre, s1.trace = s.trace ++ pre ++
          [.stop, .quiesce env.quiesceD, .dmClose e, .unregRecv, .finish e] ∧
        (∀ ev ∈ pre, ev.isTeardown = false) ∧
        (pre ++ [.stop, .quiesce env.quiesceD, .dmClose e, .unregRecv, .finish e]).filter
            Event.isTeardown
          = [.stop, .quiesce env.quiesceD, .dmClose e, .unregRecv, .finish e]) ∧
    (∀ sel s s1, Run env sel s = some (.waiting, s1) →
      ∃ pre, s1.trace = s.trace ++ pre ∧ ∀ ev ∈ pre, ev.isTeardown = false) := by
  refine ⟨?_, ?_, ?_, ?_, ?_⟩
  · intro rest err0 s
    refine ⟨_, _, runLoop_idleTimer env rest err0 s, ?_⟩
    rw [fin_trace]
    simp [XState.emits, teardownCalls]
  · intro rest err0 s
    refine ⟨_, _, runLoop_chanAbort env rest err0 s, ?_⟩
    rw [fin_trace]
    simp [XState.emits, teardownCalls]
  · intro aborted rest err0 s sI msg ch err hch hit hexit
    obtain ⟨evs, hev, hc⟩ := iterate_emits env _ _ _ _ _ _ hit
    refine ⟨_, _, evs, runLoop_work_exit env aborted rest err0 s sI msg ch err hch hit hexit,
      ?_, fun ev hmem => isCollect_not_teardown ev (hc ev hmem)⟩
    rw [fin_trace, hev]
    simp [XState.emits, teardownCalls]
  · intro sel s s1 e h
    obtain ⟨pre, hp, hc⟩ := runLoop_teardown env sel none s s1 e h
    have hnt : ∀ ev ∈ pre, ev.isTeardown = false := fun ev hev =>
      isCollect_not_teardown ev (hc ev hev)
    refine ⟨pre, hp, hnt, ?_⟩
    have hf : pre.filter Event.isTeardown = [] := by
      rw [List.filter_eq_nil_iff]
      intro ev hev
      simp [hnt ev hev]
    simp [List.filter_append, hf, Event.isTeardown]
  · intro sel s s1 h
    obtain ⟨pre, hp, hc⟩ := runLoop_waiting env sel none s s1 h
    exact ⟨pre, hp, fun ev hev => isCollect_not_teardown ev (hc ev hev)⟩

/-- Witness of `Run_teardown_order`: the idle timer fires in a fresh xaction,
and on the owner the backend fails for a constituent of an explicit list. -/
theorem Run_teardown_order_witness :
    (∃ e s1, Run (exEnv "t2") [.idleTimer] exState = some (.finished e, s1) ∧
      s1.trace = exState.trace ++
        [.stop, .quiesce (exEnv "t2").quiesceD, .dmClose e, .unregRecv, .finish e]) ∧
    (∃ e s1 evs, Run exEnvCold [.work false, .idleTimer]
        (Do exMsg (Begin exEnvCold exMsg exState).2) = some (.finished e, s1) ∧
      s1.trace = (Do exMsg (Begin exEnvCold exMsg exState).2).trace ++ evs ++
        [.stop, .quiesce exEnvCold.quiesceD, .dmClose e, .unregRecv, .finish e] ∧
      ∀ ev ∈ evs, ev.isTeardown = false) :=
  have hit : iterate exEnvCold
      (runLookup exEnvCold exMsg
        { Do exMsg (Begin exEnvCold exMsg exState).2 with workCh := [] })
      (lritOf exMsg) (exEnvCold.constituents exMsg)
      { Do exMsg (Begin exEnvCold exMsg exState).2 with workCh := [] }
      = some (some (.other "backend timeout"),
          ((iterate exEnvCold
            (runLookup exEnvCold exMsg
              { Do exMsg (Begin exEnvCold exMsg exState).2 with workCh := [] })
            (lritOf exMsg) (exEnvCold.constituents exMsg)
            { Do exMsg (Begin exEnvCold exMsg exState).2 with workCh := [] }).getD
              (none, exState)).2) := rfl
  ⟨(Run_teardown_order (exEnv "t2")).1 [] none exState,
    (Run_teardown_order exEnvCold).2.2.1 false [.idleTimer] none
      (Do exMsg (Begin exEnvCold exMsg exState).2) _ exMsg [] _ rfl hit (Or.inr (by simp))⟩

/-! ## The pending counter and the pending map -/

/-- With a tar writer, `finalize` removes `fullname` from the pending map and
leaves every other entry as it was. -/
theorem finalize_removes (env : Env) (w : archwi) (tw : TarWriter) (fullname : String)
    (s : XState) (htw : w.tw = some tw) :
    ∃ s2, finalize env (some w) fullname s = some s2 ∧ s2.m fullname = none ∧
      ∀ k, k ≠ fullname → s2.m k = s.m k := by
  obtain ⟨r, evs, hf⟩ := fini_returns env w s tw htw
  refine ⟨_, by simp only [finalize, htw, hf]; rfl, ?_, ?_⟩
  · simp [XState.DecPending, XState.emits, mapDelete]
  · intro k hk
    simp [XState.DecPending, XState.emits, mapDelete, hk]

/-- The state of `Run` once it has taken the only message of the work channel. -/
theorem Do_taken (msg : ArchiveMsg) (s : XState) (hch : s.workCh = []) :
    (Do msg s).workCh = [msg] ∧ { Do msg s with workCh := [] } = s.IncPending := by
  cases s
  simp_all [Do, XState.IncPending]

/-- One request, from `Do` to the end of its processing by `Run`, when the
iteration over its constituents returns no error and the job is not aborted. -/
theorem Run_one_request (env : Env) (msg : ArchiveMsg) (w : archwi) (s sI : XState)
    (hch : s.workCh = [])
    (hreg : s.m (msg.FullName env) = some w)
    (hit : iterate env (some w) (lritOf msg) (env.constituents msg) s.IncPending
      = some (none, sI)) :
    Run env [.work false] (Do msg s)
      = some (.waiting,
          if env.localID = w.tsi.id then
            { sI with spawned := sI.spawned ++ [(some w, msg.FullName env)] }
          else sI.DecPending) := by
  obtain ⟨h1, h2⟩ := Do_taken msg s hch
  have hl : runLookup env msg s.IncPending = some w := by
    simp [runLookup, XState.IncPending, hreg]
  simp only [Run, runLoop, h1, h2, hl, hit]
  by_cases hown : env.localID = w.tsi.id <;> simp [hown, runLoop]

/-- C1, counterexample: a request is registered and submitted with `Do`; `Run`
takes it and leaves its loop, once because the job is found aborted when the
iteration returns, once because the iteration returns an error. `Run` returns,
no `finalize` was launched, and the pending counter, 0 before `Do`, is still 1. -/
theorem pending_not_decremented_on_exit :
    exState.npending = 0 ∧
    (Run (exEnv "t1") [.work true] (Do exMsg (Begin (exEnv "t1") exMsg exState).2)).map
        (fun r => (r.1, r.2.npending, r.2.spawned.length))
      = some (.finished none, 1, 0) ∧
    (Run exEnvCold [.work false] (Do exMsg (Begin exEnvCold exMsg exState).2)).map
        (fun r => (r.1, r.2.npending, r.2.spawned.length))
      = some (.finished (some (.other "backend timeout")), 1, 0) := by
  refine ⟨rfl, by decide, by decide⟩

/-- C1, amended: `Do` increments the pending counter once. When the iteration
over the constituents of the request returns no error and the job is not
aborted, the counter is decremented exactly once: by `Run` itself on a node
that is not the owner, and on the owner by the `finalize` that `Run` launches
for the request (`Run` itself leaves the counter as it is); `Run` is then back
at its `select`. The call of `finalize` always returns and decrements the
counter by one, whether there is nothing to finalize or `_fini` succeeds or
fails. In each of these cases the counter is back at its value before `Do`.
When the iteration returns an error or the job is found aborted, `Run` leaves
its loop and returns without decrementing the counter and without launching
`finalize`: the counter stays one above its value before `Do`. -/
theorem pending_counter_balanced (env : Env) (msg : ArchiveMsg) (w : archwi) (s sI : XState)
    (err : Option Err)
    (hch : s.workCh = [])
    (hreg : s.m (msg.FullName env) = some w)
    (hit : iterate env (some w) (lritOf msg) (env.constituents msg) s.IncPending
      = some (err, sI)) :
    (Do msg s).npending = s.npending + 1 ∧
    (err = none → env.localID ≠ w.tsi.id →
      ∃ s1, (∀ rest, Run env (.work false :: rest) (Do msg s) = runLoop env rest none s1) ∧
        s1.npending = s.npending ∧ s1.spawned = s.spawned) ∧
    (err = none → env.localID = w.tsi.id →
      ∃ s1, (∀ rest, Run env (.work false :: rest) (Do msg s) = runLoop env rest none s1) ∧
        s1.npending = s.npending + 1 ∧
        s1.spawned = s.spawned ++ [(some w, msg.FullName env)] ∧
        ∃ s2, finalize env (some w) (msg.FullName env) s1 = some s2 ∧
          s2.npending = s.npending) ∧
    (∀ (wi : Option archwi) (fullname : String) (s3 : XState),
      ∃ s4, finalize env wi fullname s3 = some s4 ∧ s4.npending = s3.npending - 1) ∧
    (∀ aborted rest, (aborted = true ∨ err ≠ none) →
      ∃ e s1, Run env (.work aborted :: rest) (Do msg s) = some (.finished e, s1) ∧
        s1.npending = s.npending + 1 ∧ s1.spawned = s.spawned) := by
  obtain ⟨evs, hev, -⟩ := iterate_emits env _ _ _ _ _ _ hit
  obtain ⟨h1, h2⟩ := Do_taken msg s hch
  have hl : runLookup env msg { Do msg s with workCh := [] } = some w := by
    rw [h2]
    simp [runLookup, XState.IncPending, hreg]
  have hit2 : iterate env (runLookup env msg { Do msg s with workCh := [] }) (lritOf msg)
      (env.constituents msg) { Do msg s with workCh := [] } = some (err, sI) := by
    rw [hl, h2]
    exact hit
  refine ⟨by simp [Do, XState.IncPending], ?_, ?_, fun wi fullname s3 =>
    finalize_dec env wi fullname s3, ?_⟩
  · intro hnone hne
    subst hnone
    rw [hl] at hit2
    refine ⟨sI.DecPending, ?_, ?_, ?_⟩
    · intro rest
      have := runLoop_work_continue env rest none (Do msg s) sI msg [] w h1 hl hit2
      rw [if_neg hne] at this
      exact this
    · simp [hev, XState.DecPending, XState.emits, XState.IncPending]
    · simp [hev, XState.DecPending, XState.emits, XState.IncPending]
  · intro hnone heq
    subst hnone
    rw [hl] at hit2
    refine ⟨{ sI with spawned := sI.spawned ++ [(some w, msg.FullName env)] }, ?_, ?_, ?_, ?_⟩
    · intro rest
      have := runLoop_work_continue env rest none (Do msg s) sI msg [] w h1 hl hit2
      rw [if_pos heq] at this
      exact this
    · simp [hev, XState.emits, XState.IncPending]
    · simp [hev, XState.emits, XState.IncPending]
    · obtain ⟨s2, h3, h4⟩ := finalize_dec env (some w) (msg.FullName env)
        { sI with spawned := sI.spawned ++ [(some w, msg.FullName env)] }
      refine ⟨s2, h3, ?_⟩
      rw [h4]
      simp [hev, XState.emits, XState.IncPending]
  · intro aborted rest hexit
    refine ⟨_, _, runLoop_work_exit env aborted rest none (Do msg s) sI msg [] err h1 hit2
      hexit, ?_, ?_⟩
    · rw [(fin_fields env err sI).1, hev]
      simp [XState.emits, XState.IncPending]
    · rw [(fin_fields env err sI).2.2, hev]
      simp [XState.emits, XState.IncPending]

/-- Witness of `pending_counter_balanced`: the request `exMsg` on the owner
`t1`, once with an iteration that returns no error, once with a backend that
fails. -/
theorem pending_counter_balanced_witness :
    (Begin (exEnv "t1") exMsg exState).2.workCh = [] ∧
    (Begin (exEnv "t1") exMsg exState).2.m (exMsg.FullName (exEnv "t1")) = some exWiOwner ∧
    (∃ s1, Run (exEnv "t1") [.work false] (Do exMsg (Begin (exEnv "t1") exMsg exState).2)
        = runLoop (exEnv "t1") [] none s1 ∧
      s1.npending = 1 ∧
      ∃ s2, finalize (exEnv "t1") (some exWiOwner) (exMsg.FullName (exEnv "t1")) s1 = some s2 ∧
        s2.npending = 0) ∧
    (∃ e s1, Run exEnvCold [.work false, .work false]
        (Do exMsg (Begin exEnvCold exMsg exState).2) = some (.finished e, s1) ∧
      s1.npending = 1 ∧ s1.spawned = []) :=
  have hit : iterate (exEnv "t1") (some exWiOwner) (lritOf exMsg)
      ((exEnv "t1").constituents exMsg) (Begin (exEnv "t1") exMsg exState).2.IncPending
      = some (none, ((iterate (exEnv "t1") (some exWiOwner) (lritOf exMsg)
          ((exEnv "t1").constituents exMsg)
          (Begin (exEnv "t1") exMsg exState).2.IncPending).getD (none, exState)).2) := rfl
  have hitCold : iterate exEnvCold (some exWiOwner) (lritOf exMsg)
      (exEnvCold.constituents exMsg) (Begin exEnvCold exMsg exState).2.IncPending
      = some (some (.other "backend timeout"),
          ((iterate exEnvCold (some exWiOwner) (lritOf exMsg)
            (exEnvCold.constituents exMsg)
            (Begin exEnvCold exMsg exState).2.IncPending).getD (none, exState)).2) := rfl
  have h := (pending_counter_balanced (exEnv "t1") exMsg exWiOwner
    (Begin (exEnv "t1") exMsg exState).2 _ none rfl (by decide) hit).2.2.1 rfl rfl
  have hc := (pending_counter_balanced exEnvCold exMsg exWiOwner
    (Begin exEnvCold exMsg exState).2 _ _ rfl (by decide) hitCold).2.2.2.2
      false [.work false] (Or.inr (by simp))
  ⟨rfl, by decide,
    ⟨h.choose, h.choose_spec.1 [], h.choose_spec.2.1, h.choose_spec.2.2.2⟩,
    hc⟩

/-- C8, at the failing input: on the node `t2`, which is not the owner, the
request `exMsg` is registered by `Begin`, submitted with `Do` and processed by
`Run` through its branch for a node that is not the owner. `Run` stays in its
loop, the pending counter is back at 0, no `finalize` is launched, and the
pending map still holds the work item under the full name of the request. -/
theorem pending_entry_stays_on_non_owner :
    (Run (exEnv "t2") [.work false] (Do exMsg (Begin (exEnv "t2") exMsg exState).2)).map
        (fun r => (r.1, r.2.npending, r.2.spawned.length,
          r.2.m (exMsg.FullName (exEnv "t2"))))
      = some (.waiting, 0, 0, some exWiOther) := by
  decide

/-! ## The error `Run` finishes with -/

/-- How the loop of `Run` is left: through the teardown `fin`, entered with the
value of `err` at that moment, which is the initial one, nil, or the error that
the iteration for the last request returned. -/
theorem runLoop_exit (env : Env) (sel : List Sel) :
    ∀ (err0 : Option Err) (s s1 : XState) (e : Option Err),
      runLoop env sel err0 s = some (.finished e, s1) →
      ∃ err s0, fin env err s0 = (e, s1) ∧
        (err = err0 ∨ err = none ∨
          ∃ msg sa x, err = some x ∧
            iterate env (runLookup env msg sa) (lritOf msg) (env.constituents msg) sa
              = some (some x, s0)) := by
  induction sel with
  | nil =>
    intro err0 s s1 e h
    simp [runLoop] at h
  | cons c rest ih =>
    intro err0 s s1 e h
    cases c with
    | idleTimer =>
      simp only [runLoop, Option.some.injEq, Prod.mk.injEq, RunRes.finished.injEq] at h
      exact ⟨err0, s, Prod.ext h.1 h.2, Or.inl rfl⟩
    | chanAbort =>
      simp only [runLoop, Option.some.injEq, Prod.mk.injEq, RunRes.finished.injEq] at h
      exact ⟨err0, s, Prod.ext h.1 h.2, Or.inl rfl⟩
    | work aborted =>
      rcases hch : s.workCh with _ | ⟨msg, ch⟩
      · simp [runLoop, hch] at h
      · simp only [runLoop, hch] at h
        rcases hit : iterate env (runLookup env msg { s with workCh := ch }) (lritOf msg)
            (env.constituents msg) { s with workCh := ch } with _ | ⟨r, s2⟩
        · simp [hit] at h
        · simp only [hit] at h
          split at h
          · simp only [Option.some.injEq, Prod.mk.injEq, RunRes.finished.injEq] at h
            refine ⟨r, s2, Prod.ext h.1 h.2, ?_⟩
            rcases r with _ | x
            · exact Or.inr (Or.inl rfl)
            · exact Or.inr (Or.inr ⟨msg, _, x, rfl, hit⟩)
          · rename_i hcont
            have hr : r = none := by
              rcases r with _ | x
              · rfl
              · simp at hcont
            subst hr
            split at h
            · simp at h
            · split at h
              · obtain ⟨err, s0, hf, hor⟩ := ih _ _ _ _ h
                refine ⟨err, s0, hf, ?_⟩
                rcases hor with h1 | h1 | h1
                · exact Or.inr (Or.inl h1)
                · exact Or.inr (Or.inl h1)
                · exact Or.inr (Or.inr h1)
              · obtain ⟨err, s0, hf, hor⟩ := ih _ _ _ _ h
                refine ⟨err, s0, hf, ?_⟩
                rcases hor with h1 | h1 | h1
                · exact Or.inr (Or.inl h1)
                · exact Or.inr (Or.inl h1)
                · exact Or.inr (Or.inr h1)

/-- C11, counterexample: the quiesce ends by abort, the iteration of the
request had returned the error of the backend; `Run` finishes with the error
of the backend, which is not an aborted error. -/
theorem Run_keeps_iteration_error :
    exEnvAborted.Quiesce exEnvAborted.quiesceD = .QuiAborted ∧
    (Run exEnvAborted [.work false] (Do exMsg (Begin exEnvAborted exMsg exState).2)).map
        (fun r => (r.1, r.2.trace.drop (r.2.trace.length - 3)))
      = some (.finished (some (.other "backend timeout")),
          [.dmClose (some (.other "backend timeout")), .unregRecv,
           .finish (some (.other "backend timeout"))]) := by
  refine ⟨rfl, by decide⟩

/-- C11, amended: when the quiesce at the end of `Run` ends by abort, the error
with which `Run` closes the transport and finishes the job is the aborted
error exactly when the error so far is nil, and is the error so far
otherwise. So `Run` finishes with the aborted error when `select` picks the
idle timer or the abort signal while `err` is nil, which it is before the
first request and again after every request that keeps the job running, and
when the job is found aborted after an iteration that returned nil; and when
the iteration for a request returned an error, `Run` finishes with that
error, not with the aborted error. -/
theorem Run_quiesce_aborted (env : Env) (hq : env.Quiesce env.quiesceD = .QuiAborted) :
    (∀ rest err0 s, ∃ s1,
      runLoop env (.idleTimer :: rest) err0 s
        = some (.finished (if err0 = none then some (NewAbortedError env.name) else err0),
            s1) ∧
      s1.trace = s.trace ++ [.stop, .quiesce env.quiesceD,
        .dmClose (if err0 = none then some (NewAbortedError env.name) else err0), .unregRecv,
        .finish (if err0 = none then some (NewAbortedError env.name) else err0)]) ∧
    (∀ rest err0 s, ∃ s1,
      runLoop env (.chanAbort :: rest) err0 s
        = some (.finished (if err0 = none then some (NewAbortedError env.name) else err0),
            s1) ∧
      s1.trace = s.trace ++ [.stop, .quiesce env.quiesceD,
        .dmClose (if err0 = none then some (NewAbortedError env.name) else err0), .unregRecv,
        .finish (if err0 = none then some (NewAbortedError env.name) else err0)]) ∧
    (∀ aborted rest err0 s sI msg ch err, s.workCh = msg :: ch →
      iterate env (runLookup env msg { s with workCh := ch }) (lritOf msg)
        (env.constituents msg) { s with workCh := ch } = some (err, sI) →
      (aborted = true ∨ err ≠ none) →
      ∃ s1, runLoop env (.work aborted :: rest) err0 s
          = some (.finished (if err = none then some (NewAbortedError env.name) else err),
              s1) ∧
        s1.trace = sI.trace ++ [.stop, .quiesce env.quiesceD,
          .dmClose (if err = none then some (NewAbortedError env.name) else err), .unregRecv,
          .finish (if err = none then some (NewAbortedError env.name) else err)]) ∧
    (∀ rest err0 s sI msg ch w, s.workCh = msg :: ch →
      runLookup env msg { s with workCh := ch } = some w →
      iterate env (some w) (lritOf msg) (env.constituents msg) { s with workCh := ch }
        = some (none, sI) →
      ∃ s1, runLoop env (.work false :: rest) err0 s = runLoop env rest none s1) ∧
    (∀ rest s, ∃ s1, Run env (.idleTimer :: rest) s
        = some (.finished (some (NewAbortedError env.name)), s1)) ∧
    (∀ rest s, ∃ s1, Run env (.chanAbort :: rest) s
        = some (.finished (some (NewAbortedError env.name)), s1)) := by
  have hfin : ∀ (err : Option Err) (s : XState),
      (fin env err s).1 = (if err = none then some (NewAbortedError env.name) else err) := by
    intro err s
    rw [fin_err]
    simp [hq]
  have htr : ∀ (err : Option Err) (s : XState),
      (fin env err s).2.trace = s.trace ++ [.stop, .quiesce env.quiesceD,
        .dmClose (if err = none then some (NewAbortedError env.name) else err), .unregRecv,
        .finish (if err = none then some (NewAbortedError env.name) else err)] := by
    intro err s
    rw [fin_trace, hfin]
    simp [XState.emits, teardownCalls]
  refine ⟨?_, ?_, ?_, ?_, ?_, ?_⟩
  · intro rest err0 s
    exact ⟨_, by rw [runLoop_idleTimer, hfin], htr err0 s⟩
  · intro rest err0 s
    exact ⟨_, by rw [runLoop_chanAbort, hfin], htr err0 s⟩
  · intro aborted rest err0 s sI msg ch err hch hit hexit
    exact ⟨_, by rw [runLoop_work_exit env aborted rest err0 s sI msg ch err hch hit hexit,
      hfin], htr err sI⟩
  · intro rest err0 s sI msg ch w hch hl hit
    exact ⟨_, runLoop_work_continue env rest err0 s sI msg ch w hch hl hit⟩
  · intro rest s
    refine ⟨(fin env none s).2, ?_⟩
    show runLoop env (.idleTimer :: rest) none s = _
    rw [runLoop_idleTimer, hfin]
    simp
  · intro rest s
    refine ⟨(fin env none s).2, ?_⟩
    show runLoop env (.chanAbort :: rest) none s = _
    rw [runLoop_chanAbort, hfin]
    simp

/-- Witness of `Run_quiesce_aborted`: with a quiesce that ends by abort, the
idle timer in a fresh xaction gives the aborted error, and the failure of the
backend for a constituent of an explicit list gives the error of the backend. -/
theorem Run_quiesce_aborted_witness :
    exEnvAborted.Quiesce exEnvAborted.quiesceD = .QuiAborted ∧
    (∃ s1, Run exEnvAborted [.idleTimer] exState
        = some (.finished (some (NewAbortedError exEnvAborted.name)), s1)) ∧
    (∃ s1, Run exEnvAborted [.work false] (Do exMsg (Begin exEnvAborted exMsg exState).2)
        = some (.finished (some (.other "backend timeout")), s1)) :=
  have hit : iterate exEnvAborted
      (runLookup exEnvAborted exMsg
        { Do exMsg (Begin exEnvAborted exMsg exState).2 with workCh := [] })
      (lritOf exMsg) (exEnvAborted.constituents exMsg)
      { Do exMsg (Begin exEnvAborted exMsg exState).2 with workCh := [] }
      = some (some (.other "backend timeout"),
          ((iterate exEnvAborted
            (runLookup exEnvAborted exMsg
              { Do exMsg (Begin exEnvAborted exMsg exState).2 with workCh := [] })
            (lritOf exMsg) (exEnvAborted.constituents exMsg)
            { Do exMsg (Begin exEnvAborted exMsg exState).2 with workCh := [] }).getD
              (none, exState)).2) := rfl
  have h := (Run_quiesce_aborted exEnvAborted rfl).2.2.1 false [] none
    (Do exMsg (Begin exEnvAborted exMsg exState).2) _ exMsg [] _ rfl hit (Or.inr (by simp))
  ⟨rfl, (Run_quiesce_aborted exEnvAborted rfl).2.2.2.2.1 [] exState,
    ⟨h.choose, h.choose_spec.1⟩⟩

/-- C12: when the iteration for a request returns an error, or the job is
aborted when the iteration returns, `Run` leaves its loop: it launches no
`finalize`, makes no `FinalizeObj` call, takes no further request from the
work channel whatever `select` would have picked next, and, when the error of
the iteration is not nil, closes the transport and finishes the job with
exactly that error. -/
theorem Run_stops_on_error (env : Env) (aborted : Bool) (rest : List Sel) (err0 : Option Err)
    (s sI : XState) (msg : ArchiveMsg) (ch : List ArchiveMsg) (err : Option Err)
    (hch : s.workCh = msg :: ch)
    (hit : iterate env (runLookup env msg { s with workCh := ch }) (lritOf msg)
      (env.constituents msg) { s with workCh := ch } = some (err, sI))
    (hexit : aborted = true ∨ err ≠ none) :
    ∃ e s1, runLoop env (.work aborted :: rest) err0 s = some (.finished e, s1) ∧
      s1.spawned = s.spawned ∧ s1.workCh = ch ∧
      (∃ evs, s1.trace = s.trace ++ evs ++
          [.stop, .quiesce env.quiesceD, .dmClose e, .unregRecv, .finish e] ∧
        evs.filter Event.isFinalizeObj = []) ∧
      (∀ x, err = some x → e = some x) := by
  obtain ⟨evs, hev, hc⟩ := iterate_emits env _ _ _ _ _ _ hit
  have hcond : (aborted || err.isSome) = true := by
    rcases hexit with h1 | h1
    · simp [h1]
    · rcases err with _ | x
      · exact absurd rfl h1
      · simp
  refine ⟨(fin env err sI).1, (fin env err sI).2, ?_, ?_, ?_, ?_, ?_⟩
  · simp only [runLoop, hch, hit, hcond, if_true]
  · rw [(fin_fields env err sI).2.2, hev]; rfl
  · simp [fin, XState.emit, hev, XState.emits]
  · refine ⟨evs, ?_, ?_⟩
    · rw [fin_trace, hev]
      simp [XState.emits, teardownCalls]
    · rw [List.filter_eq_nil_iff]
      intro ev hmem
      have := hc ev hmem
      cases ev <;> simp_all [Event.isCollect, Event.isFinalizeObj]
  · intro x hx
    subst hx
    simp [fin_err]

/-- Witness of `Run_stops_on_error`: on the owner, the backend fails for a
constituent of an explicit list while two more choices of `select` follow. -/
theorem Run_stops_on_error_witness :
    ∃ e s1, runLoop exEnvCold [.work false, .work false, .idleTimer] none
        (Do exMsg (Begin exEnvCold exMsg exState).2) = some (.finished e, s1) ∧
      s1.spawned = [] ∧ s1.workCh = [] ∧ e = some (.other "backend timeout") :=
  have hit : iterate exEnvCold
      (runLookup exEnvCold exMsg
        { Do exMsg (Begin exEnvCold exMsg exState).2 with workCh := [] })
      (lritOf exMsg) (exEnvCold.constituents exMsg)
      { Do exMsg (Begin exEnvCold exMsg exState).2 with workCh := [] }
      = some (some (.other "backend timeout"),
          ((iterate exEnvCold
            (runLookup exEnvCold exMsg
              { Do exMsg (Begin exEnvCold exMsg exState).2 with workCh := [] })
            (lritOf exMsg) (exEnvCold.constituents exMsg)
            { Do exMsg (Begin exEnvCold exMsg exState).2 with workCh := [] }).getD
              (none, exState)).2) := rfl
  have h := Run_stops_on_error exEnvCold false [.work false, .idleTimer] none
    (Do exMsg (Begin exEnvCold exMsg exState).2) _ exMsg [] _ rfl hit (Or.inr (by simp))
  ⟨h.choose, h.choose_spec.choose, h.choose_spec.choose_spec.1,
    h.choose_spec.choose_spec.2.1, h.choose_spec.choose_spec.2.2.1,
    h.choose_spec.choose_spec.2.2.2.2 _ rfl⟩

/-! ## Begin leaves the pending map alone when it fails -/

/-- C17: whenever `Begin` returns an error, the pending map is what it was
before the call; and `Begin` returns the error of the initialization of the
archive handle, of the resolution of the owner, or, on the owner, of the
creation of the destination file, when one of them fails. -/
theorem Begin_error_keeps_pending (env : Env) (msg : ArchiveMsg) (s : XState) :
    ((Begin env msg s).1 ≠ none → (Begin env msg s).2.m = s.m) ∧
    (∀ e, LOM.Init env (AllocLOM msg.ArchName) msg.ToBck = .error e →
      Begin env msg s = (some e, s)) ∧
    (∀ lom e, LOM.Init env (AllocLOM msg.ArchName) msg.ToBck = .ok lom →
      env.HrwTarget (env.MakeUname msg.ToBck msg.ArchName) s.smap = .error e →
      Begin env msg s = (some e, s)) ∧
    (∀ lom tsi e, LOM.Init env (AllocLOM msg.ArchName) msg.ToBck = .ok lom →
      env.HrwTarget (env.MakeUname msg.ToBck msg.ArchName) s.smap = .ok tsi →
      env.localID = tsi.id →
      env.CreateFile lom (env.GenContentFQN lom) = .error e →
      (Begin env msg s).1 = some e ∧ (Begin env msg s).2.m = s.m) := by
  refine ⟨?_, ?_, ?_, ?_⟩
  · intro h
    rcases hI : LOM.Init env (AllocLOM msg.ArchName) msg.ToBck with e | lom
    · simp [Begin, debugAssert, hI]
    · rcases hT : env.HrwTarget (env.MakeUname msg.ToBck msg.ArchName) s.smap with e | tsi
      · simp [Begin, debugAssert, hI, hT]
      · by_cases hown : env.localID = tsi.id
        · rcases hC : env.CreateFile lom (env.GenContentFQN lom) with e | fh
          · simp [Begin, debugAssert, hI, hT, hown, hC, XState.emit]
          · simp [Begin, debugAssert, hI, hT, hown, hC] at h
        · simp [Begin, debugAssert, hI, hT, hown] at h
  · intro e hI
    simp [Begin, debugAssert, hI]
  · intro lom e hI hT
    simp [Begin, debugAssert, hI, hT]
  · intro lom tsi e hI hT hown hC
    simp [Begin, debugAssert, hI, hT, hown, hC, XState.emit]

/-- Witness of `Begin_error_keeps_pending`: no target in the cluster map. -/
theorem Begin_error_keeps_pending_witness :
    (Begin (exEnv "t1") exMsg { exState with smap := ⟨2, []⟩ }).1
      = some (.other "no targets") ∧
    (Begin (exEnv "t1") exMsg { exState with smap := ⟨2, []⟩ }).2.m = exState.m :=
  ⟨rfl, (Begin_error_keeps_pending (exEnv "t1") exMsg { exState with smap := ⟨2, []⟩ }).1
    (by decide)⟩

/-! ## Statistics and snapshots -/

/-- C13: the idle flag of the snapshot that `Stats` returns is true exactly
when the pending counter is zero; so, starting from a counter that is not
negative, a snapshot taken after `Do(msg)`, in any state in which the counter
still has the value `Do` gave it, reports not idle. -/
theorem Stats_idle_iff_no_pending (baseStats : BaseXactStatsExt) (s : XState) :
    (∃ ext, (Stats baseStats s).Ext = some ext ∧ (ext.IsIdle = true ↔ s.Pending = 0)) ∧
    (∀ msg s1, 0 ≤ s.Pending → s1.Pending = (Do msg s).Pending →
      (Stats baseStats s1).Ext = some { IsIdle := false }) := by
  constructor
  · exact ⟨_, rfl, by simp⟩
  · intro msg s1 h0 h1
    have : s1.Pending ≠ 0 := by
      rw [h1]
      simp only [Do, XState.Pending, XState.IncPending] at h0 ⊢
      omega
    simp [Stats, this]

/-- Witness of `Stats_idle_iff_no_pending`: the snapshot after one `Do`. -/
theorem Stats_idle_iff_no_pending_witness :
    0 ≤ exState.Pending ∧
    (Stats ⟨"x1", "archive", none⟩ (Do exMsg exState)).Ext = some { IsIdle := false } :=
  ⟨by decide,
    (Stats_idle_iff_no_pending ⟨"x1", "archive", none⟩ exState).2 exMsg _ (by decide) rfl⟩

/-- C14: `SnapExt.Idle` returns the value of `is_idle` when `Ext` is a map that
holds a boolean under `is_idle`; for every other snapshot (no `Ext`, an `Ext`
without `is_idle`, with an `is_idle` that is not a boolean, or an `Ext` that
is not a map) it returns the negation of `Running()`, which is true exactly
when the end time is not the zero time. -/
theorem Idle_spec (b : SnapExt) :
    (∀ vals idle, b.Ext = .vals vals → vals.lookup "is_idle" = some (.bool idle) →
      b.Idle = idle) ∧
    ((b.Ext = .null ∨
      (∃ vals, b.Ext = .vals vals ∧ vals.lookup "is_idle" = none) ∨
      (∃ vals v, b.Ext = .vals vals ∧ vals.lookup "is_idle" = some v ∧
        ∀ idle, v ≠ .bool idle) ∨
      (∃ what, b.Ext = .another what)) →
      b.Idle = !b.toSnap.Running ∧ (b.Idle = true ↔ b.EndTime ≠ ⟨0, 0⟩)) := by
  have hz : (!b.toSnap.Running) = true ↔ b.EndTime ≠ ⟨0, 0⟩ := by
    rcases b with ⟨⟨id, kind, bck, st, ⟨sec, nsec⟩, ab⟩, ext⟩
    simp only [Snap.Running, Time.IsZero, ne_eq, Time.mk.injEq]
    by_cases h1 : sec = 0 <;> by_cases h2 : nsec = 0 <;> simp [h1, h2]
  constructor
  · intro vals idle hv hl
    simp [SnapExt.Idle, hv, hl]
  · intro h
    have hi : b.Idle = !b.toSnap.Running := by
      rcases h with h | ⟨vals, hv, hl⟩ | ⟨vals, v, hv, hl, hnb⟩ | ⟨what, hw⟩
      · simp [SnapExt.Idle, h]
      · simp [SnapExt.Idle, hv, hl]
      · cases v with
        | bool idle => exact absurd rfl (hnb idle)
        | null => simp [SnapExt.Idle, hv, hl]
        | number n => simp [SnapExt.Idle, hv, hl]
        | text t => simp [SnapExt.Idle, hv, hl]
      · simp [SnapExt.Idle, hw]
    exact ⟨hi, by rw [hi]; exact hz⟩

/-- Witness of `Idle_spec`: a finished snapshot without `Ext`, and a running
snapshot of an on-demand xaction that is idle. -/
theorem Idle_spec_witness :
    SnapExt.Idle ⟨⟨"x1", "archive", ⟨"src", "ais"⟩, ⟨10, 0⟩, ⟨20, 0⟩, false⟩, .null⟩ = true ∧
    SnapExt.Idle ⟨⟨"x1", "archive", ⟨"src", "ais"⟩, ⟨10, 0⟩, ⟨0, 0⟩, false⟩,
      .vals [("is_idle", .bool true)]⟩ = true :=
  ⟨(((Idle_spec ⟨⟨"x1", "archive", ⟨"src", "ais"⟩, ⟨10, 0⟩, ⟨20, 0⟩, false⟩, .null⟩).2
      (Or.inl rfl)).2).2 (by decide),
    (Idle_spec ⟨⟨"x1", "archive", ⟨"src", "ais"⟩, ⟨10, 0⟩, ⟨0, 0⟩, false⟩,
      .vals [("is_idle", .bool true)]⟩).1 _ true rfl (by decide)⟩

/-! ## The burst of the transport -/

/-- An empty string is not a number for `ParseInt`. -/
theorem ParseInt_empty : ParseInt "" = none := rfl

/-- C15: `burst` returns the integer value of `AIS_STREAM_BURST_NUM` when the
variable holds a string that `ParseInt` reads as a base-10 integer; otherwise
(variable not set, empty, or not read by `ParseInt`) it returns
`config.Transport.Burst` when that is not zero, and the default 32 when it is. -/
theorem burst_spec (configBurst : Int) (getenv : String) :
    (∀ n, ParseInt getenv = some n → burst configBurst getenv = n) ∧
    (ParseInt getenv = none → configBurst ≠ 0 → burst configBurst getenv = configBurst) ∧
    (ParseInt getenv = none → configBurst = 0 → burst configBurst getenv = 32) ∧
    (getenv = "" → ParseInt getenv = none) := by
  refine ⟨?_, ?_, ?_, ?_⟩
  · intro n hn
    have hne : getenv ≠ "" := by
      intro h
      rw [h, ParseInt_empty] at hn
      exact Option.noConfusion hn
    simp [burst, hne, hn]
  · intro hn hc
    by_cases hne : getenv = "" <;> simp [burst, hne, hn, hc]
  · intro hn hc
    by_cases hne : getenv = "" <;> simp [burst, hne, hn, hc, dfltBurstNum]
  · intro h
    rw [h, ParseInt_empty]

/-- Witness of `burst_spec`: the variable set to 64 wins over the configured
16; a value that is not a number leaves the configured 16; with nothing
configured and the variable not set the burst is 32. -/
theorem burst_spec_witness :
    ParseInt "64" = some 64 ∧ burst 16 "64" = 64 ∧
    ParseInt "6x" = none ∧ burst 16 "6x" = 16 ∧ burst 0 "" = 32 :=
  ⟨by decide, (burst_spec 16 "64").1 64 (by decide), by decide,
    (burst_spec 16 "6x").2.1 (by decide) (by decide),
    (burst_spec 0 "").2.2.1 (by decide) rfl⟩

/-! ## ParseURLScheme -/

theorem schemeSep_eq : schemeSep = [':', '/', '/'] := rfl

/-- A string without the separator is not split. -/
theorem splitFirst_none (l : List Char) (h : ¬ schemeSep <:+: l) :
    splitFirst schemeSep l = none := by
  induction l with
  | nil => rfl
  | cons c cs ih =>
    have hcs : ¬ schemeSep <:+: cs := fun hin => h (List.infix_cons hin)
    have hnp : schemeSep.isPrefixOf (c :: cs) = false := by
      rw [Bool.eq_false_iff]
      intro hp
      exact h (List.isPrefixOf_iff_prefix.mp hp).isInfix
    simp [splitFirst, hnp, ih hcs]

/-- A scheme without the separator, the separator and an address are split
into the scheme and the address: the separator cannot begin inside the scheme. -/
theorem splitFirst_append (l a : List Char) (h : ¬ schemeSep <:+: l) :
    splitFirst schemeSep (l ++ schemeSep ++ a) = some (l, a) := by
  induction l with
  | nil =>
    simp [schemeSep_eq, splitFirst, List.isPrefixOf]
  | cons c cs ih =>
    have hcs : ¬ schemeSep <:+: cs := fun hin => h (List.infix_cons hin)
    have hnp : schemeSep.isPrefixOf (c :: (cs ++ schemeSep ++ a)) = false := by
      rw [Bool.eq_false_iff]
      intro hp
      rcases cs with _ | ⟨d, _ | ⟨e, r⟩⟩
      · simp [schemeSep_eq, List.isPrefixOf] at hp
      · simp [schemeSep_eq, List.isPrefixOf] at hp
      · simp only [schemeSep_eq, List.cons_append, List.isPrefixOf, Bool.and_eq_true,
          beq_iff_eq] at hp
        obtain ⟨h1, h2, h3, -⟩ := hp
        subst h1 h2 h3
        exact h ⟨[], r, rfl⟩
    have hl : (c :: cs) ++ schemeSep ++ a = c :: (cs ++ schemeSep ++ a) := by simp
    rw [hl]
    simp only [splitFirst, hnp, Bool.false_eq_true, if_false, ih hcs]

/-- The table of `TestParseURLScheme` passes on the model of `ParseURLScheme`. -/
theorem testCases_pass : testCases.all testCasePasses = true := by decide

/-- C16: for a scheme `s` without `://` and any address `a`,
`ParseURLScheme(s + "://" + a)` is `(s, a)`; for a string `u` without `://`,
`ParseURLScheme(u)` is the empty scheme and `u`. -/
theorem ParseURLScheme_spec :
    (∀ s a : String, ¬ schemeSep <:+: s.toList → ParseURLScheme (s ++ "://" ++ a) = (s, a)) ∧
    (∀ u : String, ¬ schemeSep <:+: u.toList → ParseURLScheme u = ("", u)) := by
  constructor
  · intro s a h
    have hl : (s ++ "://" ++ a).toList = s.toList ++ schemeSep ++ a.toList := by
      simp [String.toList, schemeSep]
    simp only [ParseURLScheme, hl, splitFirst_append s.toList a.toList h]
    rfl
  · intro u h
    simp only [ParseURLScheme, splitFirst_none u.toList h]

/-- Witness of `ParseURLScheme_spec`: the first case of the test table. -/
theorem ParseURLScheme_spec_witness :
    ¬ schemeSep <:+: "http".toList ∧
    ParseURLScheme ("http" ++ "://" ++ "localhost:8080") = ("http", "localhost:8080") :=
  have h : ¬ schemeSep <:+: "http".toList := by decide
  ⟨h, ParseURLScheme_spec.1 "http" "localhost:8080" h⟩

/-! ## The S3 object handlers resolve the same target -/

/-- C18: for a bucket and a request path with at least one object-name item,
the PUT, GET and HEAD handlers redirect, when they redirect, to the node that
`HrwTarget` resolves in the current cluster map from the unique name that the
bucket makes of `path.Join(items[1:]...)`: the same node for the three of them.
When that resolution fails, none of them redirects: each reports an error. -/
theorem s3_handlers_same_target (p : PEnv) (bucket obj : String) (rest : List String) :
    (∀ si net, (putObjS3 p (bucket :: obj :: rest) = some (.redirect si net) ∨
        getObjS3 p (bucket :: obj :: rest) = some (.redirect si net) ∨
        headObjS3 p (bucket :: obj :: rest) = some (.redirect si net)) →
      p.HrwTarget (p.MakeUname (NewBck bucket) (p.pathJoin (obj :: rest))) p.smap = .ok si) ∧
    (∀ si1 si2 si3 n1 n2 n3,
      putObjS3 p (bucket :: obj :: rest) = some (.redirect si1 n1) →
      getObjS3 p (bucket :: obj :: rest) = some (.redirect si2 n2) →
      headObjS3 p (bucket :: obj :: rest) = some (.redirect si3 n3) →
      si2 = si1 ∧ si3 = si1) ∧
    (∀ err, p.HrwTarget (p.MakeUname (NewBck bucket) (p.pathJoin (obj :: rest))) p.smap
        = .error err →
      (∃ e st, putObjS3 p (bucket :: obj :: rest) = some (.invalErr e st) ∧
        (p.bckInit (NewBck bucket) = none → p.AllowPUT (NewBck bucket) = none → e = err)) ∧
      (∃ e st, getObjS3 p (bucket :: obj :: rest) = some (.invalErr e st) ∧
        (p.bckInit (NewBck bucket) = none → p.AllowGET (NewBck bucket) = none → e = err)) ∧
      (∃ e st, headObjS3 p (bucket :: obj :: rest) = some (.invalErr e st) ∧
        (p.bckInit (NewBck bucket) = none → p.AllowHEAD (NewBck bucket) = none →
          e = err))) := by
  have hlen : ¬ (rest.length + 1 + 1 < 2) := by omega
  have hput : ∀ si net, putObjS3 p (bucket :: obj :: rest) = some (.redirect si net) →
      p.HrwTarget (p.MakeUname (NewBck bucket) (p.pathJoin (obj :: rest))) p.smap = .ok si := by
    intro si net h
    simp only [putObjS3] at h
    rcases hI : p.bckInit (NewBck bucket) with _ | e <;> rw [hI] at h
    · rcases hA : p.AllowPUT (NewBck bucket) with _ | e <;> simp [hA, hlen] at h
      rcases hT : p.HrwTarget (p.MakeUname (NewBck bucket) (p.pathJoin (obj :: rest))) p.smap
        with e | t <;> simp [hT] at h
      rw [h.1]
    · simp at h
  have hget : ∀ si net, getObjS3 p (bucket :: obj :: rest) = some (.redirect si net) →
      p.HrwTarget (p.MakeUname (NewBck bucket) (p.pathJoin (obj :: rest))) p.smap = .ok si := by
    intro si net h
    simp only [getObjS3] at h
    rcases hI : p.bckInit (NewBck bucket) with _ | e <;> rw [hI] at h
    · rcases hA : p.AllowGET (NewBck bucket) with _ | e <;> simp [hA, hlen] at h
      rcases hT : p.HrwTarget (p.MakeUname (NewBck bucket) (p.pathJoin (obj :: rest))) p.smap
        with e | t <;> simp [hT] at h
      rw [h.1]
    · simp at h
  have hhead : ∀ si net, headObjS3 p (bucket :: obj :: rest) = some (.redirect si net) →
      p.HrwTarget (p.MakeUname (NewBck bucket) (p.pathJoin (obj :: rest))) p.smap = .ok si := by
    intro si net h
    simp only [headObjS3] at h
    rcases hI : p.bckInit (NewBck bucket) with _ | e <;> simp [hI, hlen] at h
    rcases hA : p.AllowHEAD (NewBck bucket) with _ | e <;> simp [hA] at h
    rcases hT : p.HrwTarget (p.MakeUname (NewBck bucket) (p.pathJoin (obj :: rest))) p.smap
      with e | t <;> simp [hT] at h
    rw [h.1]
  refine ⟨?_, ?_, ?_⟩
  · intro si net h
    rcases h with h | h | h
    · exact hput si net h
    · exact hget si net h
    · exact hhead si net h
  · intro si1 si2 si3 n1 n2 n3 h1 h2 h3
    have e1 := hput si1 n1 h1
    have e2 := hget si2 n2 h2
    have e3 := hhead si3 n3 h3
    rw [e1] at e2 e3
    simp only [Except.ok.injEq] at e2 e3
    exact ⟨e2.symm, e3.symm⟩
  · intro err hT
    refine ⟨?_, ?_, ?_⟩
    · rcases hI : p.bckInit (NewBck bucket) with _ | e
      · rcases hA : p.AllowPUT (NewBck bucket) with _ | e
        · exact ⟨err, none, by simp [putObjS3, hI, hA, hT], fun _ _ => rfl⟩
        · exact ⟨e, none, by simp [putObjS3, hI, hA], fun _ h2 => Option.noConfusion h2⟩
      · exact ⟨e, none, by simp [putObjS3, hI], fun h1 _ => Option.noConfusion h1⟩
    · rcases hI : p.bckInit (NewBck bucket) with _ | e
      · rcases hA : p.AllowGET (NewBck bucket) with _ | e
        · exact ⟨err, none, by simp [getObjS3, hI, hA, hT], fun _ _ => rfl⟩
        · exact ⟨e, none, by simp [getObjS3, hI, hA], fun _ h2 => Option.noConfusion h2⟩
      · exact ⟨e, none, by simp [getObjS3, hI], fun h1 _ => Option.noConfusion h1⟩
    · rcases hI : p.bckInit (NewBck bucket) with _ | e
      · rcases hA : p.AllowHEAD (NewBck bucket) with _ | e
        · exact ⟨err, some StatusInternalServerError, by simp [headObjS3, hI, hA, hT], fun _ _ => rfl⟩
        · exact ⟨e, none, by simp [headObjS3, hI, hA], fun _ h2 => Option.noConfusion h2⟩
      · exact ⟨e, none, by simp [headObjS3, hI], fun h1 _ => Option.noConfusion h1⟩

/-- Witness of `s3_handlers_same_target`: with the targets `t1` and `t2` the
three handlers redirect `imagenet/train/0.tar` to `t1`; with no target each of
them reports the error. -/
theorem s3_handlers_same_target_witness :
    putObjS3 exPEnv ["imagenet", "train", "0.tar"] = some (.redirect ⟨"t1"⟩ .IntraData) ∧
    getObjS3 exPEnv ["imagenet", "train", "0.tar"] = some (.redirect ⟨"t1"⟩ .IntraData) ∧
    headObjS3 exPEnv ["imagenet", "train", "0.tar"] = some (.redirect ⟨"t1"⟩ .IntraControl) ∧
    ((⟨"t1"⟩ : Snode) = ⟨"t1"⟩ ∧ (⟨"t1"⟩ : Snode) = ⟨"t1"⟩) ∧
    ∃ e st, headObjS3 exPEnvEmpty ["imagenet", "train", "0.tar"] = some (.invalErr e st) ∧
      (exPEnvEmpty.bckInit (NewBck "imagenet") = none →
        exPEnvEmpty.AllowHEAD (NewBck "imagenet") = none → e = .other "no targets") :=
  ⟨by decide, by decide, by decide,
    (s3_handlers_same_target exPEnv "imagenet" "train" ["0.tar"]).2.1 ⟨"t1"⟩ ⟨"t1"⟩ ⟨"t1"⟩
      .IntraData .IntraData .IntraControl (by decide) (by decide) (by decide),
    ((s3_handlers_same_target exPEnvEmpty "imagenet" "train" ["0.tar"]).2.2
      (.other "no targets") rfl).2.2⟩

end Aistore
